import Mathlib

/-!
Verification of the telemetry durability and delivery subsystem of the
davies-snow-sensor repository.

Python strings are modelled as lists of characters (`List Char`); Python
dict-shaped readings are modelled as records carrying exactly the fields the
embedded functions read; Python floats are modelled as rationals, so the fixed
precision formatting of the wire format (one decimal for temperature, two for
battery voltage) becomes round-half-even quantisation over `ℚ`.  Fallible
Python calls (`int(...)`, `float(...)`, raising `ValueError`) are modelled
with `Option` and `Except`.  Filesystem effects are modelled by explicit
state passing; the outcome of an individual OS call that can fail (directory
creation, file write) is supplied by an explicit environment value.
-/

namespace SnowSensor

/-- Python `str.strip` whitespace set, restricted to the ASCII whitespace
characters that can occur in the wire format. -/
def isPySpace (c : Char) : Bool :=
  c = ' ' || c = '\t' || c = '\n' || c = '\r' || c = '\x0b' || c = '\x0c'

/-- ASCII decimal digit test, as used by Python int/float literal parsing. -/
def isDigitChar (c : Char) : Bool :=
  48 ≤ c.toNat && c.toNat ≤ 57

/-- Numeric value of an ASCII digit character. -/
def digitVal (c : Char) : Nat := c.toNat - 48

/-- The ASCII character of a decimal digit. -/
def digitChar : Nat → Char
  | 0 => '0'
  | 1 => '1'
  | 2 => '2'
  | 3 => '3'
  | 4 => '4'
  | 5 => '5'
  | 6 => '6'
  | 7 => '7'
  | 8 => '8'
  | 9 => '9'
  | _ => '*'

/-- Python `str.strip()`: drop leading and trailing whitespace. -/
def pyStrip (cs : List Char) : List Char :=
  ((cs.dropWhile isPySpace).reverse.dropWhile isPySpace).reverse

/-- Python `str.split(",")`: split on every comma; best understood through
the defining equations, e.g. splitting the empty string gives one empty
field and each comma starts a new field. -/
def splitComma : List Char → List (List Char)
  | [] => [[]]
  | c :: rest =>
    if c = ',' then [] :: splitComma rest
    else
      match splitComma rest with
      | [] => [[c]]
      | p :: ps => (c :: p) :: ps

/-- Python `",".join(parts)`. -/
def joinComma : List (List Char) → List Char
  | [] => []
  | [p] => p
  | p :: ps => p ++ ',' :: joinComma ps

/-- Fuel-driven digit renderer; with fuel above the argument it yields the
decimal digit characters, most significant first. -/
def natDigitsAux : Nat → Nat → List Char
  | 0, _ => []
  | fuel + 1, n =>
    if n < 10 then [digitChar n]
    else natDigitsAux fuel (n / 10) ++ [digitChar (n % 10)]

/-- Decimal digit characters of a natural number, most significant first,
as produced by Python `str` on a nonnegative integer. -/
def natDigits (n : Nat) : List Char := natDigitsAux (n + 1) n

/-- Python `str` on an int: optional minus sign followed by the digits. -/
def renderInt (i : Int) : List Char :=
  if i < 0 then '-' :: natDigits i.natAbs else natDigits i.natAbs

/-- Value of a digit string read left to right with accumulator. -/
def digitsValFrom (acc : Nat) : List Char → Nat
  | [] => acc
  | c :: cs => digitsValFrom (10 * acc + digitVal c) cs

/-- Numeric value of a decimal digit string. -/
def digitsVal (cs : List Char) : Nat := digitsValFrom 0 cs

/-- Shared digit-run parser: a nonempty all-digit string and its value. -/
def parseDigits (cs : List Char) : Option Nat :=
  if cs ≠ [] ∧ cs.all isDigitChar = true then some (digitsVal cs) else none

/-- Signed integer out of an optional digit-run value. -/
def signDigits : Bool → Option Nat → Option Int
  | _, none => none
  | true, some n => some (-(n : Int))
  | false, some n => some ((n : Int))

/-- Python `int(text)` on stripped text: optional sign followed by a nonempty
digit run (ASCII digits; digit-group underscores are not modelled). -/
def pyInt? (cs : List Char) : Option Int :=
  match cs with
  | [] => none
  | c :: rest =>
    if c = '-' then signDigits true (parseDigits rest)
    else if c = '+' then signDigits false (parseDigits rest)
    else signDigits false (parseDigits (c :: rest))

/-- Unsigned part of Python `float(text)`: decimal notation with an optional
fractional part and optional exponent, valued in `ℚ` (the special texts
inf and nan and digit-group underscores are not modelled). -/
def pyFloatMag? (cs : List Char) : Option ℚ :=
  let ip := cs.takeWhile isDigitChar
  let rest := cs.dropWhile isDigitChar
  match rest with
  | [] => if ip = [] then none else some ((digitsVal ip : ℚ))
  | c :: rest2 =>
    if c = '.' then
      let fp := rest2.takeWhile isDigitChar
      let rest3 := rest2.dropWhile isDigitChar
      if ip = [] ∧ fp = [] then none
      else
        let m : ℚ := (digitsVal ip : ℚ) + (digitsVal fp : ℚ) / (10 : ℚ) ^ fp.length
        match rest3 with
        | [] => some m
        | e :: rest4 =>
          if e = 'e' ∨ e = 'E' then
            match pyInt? rest4 with
            | none => none
            | some ex => some (m * (10 : ℚ) ^ ex)
          else none
    else if c = 'e' ∨ c = 'E' then
      if ip = [] then none
      else
        match pyInt? rest2 with
        | none => none
        | some ex => some ((digitsVal ip : ℚ) * (10 : ℚ) ^ ex)
    else none

/-- Python `float(text)` on stripped text, valued in `ℚ`. -/
def pyFloat? (cs : List Char) : Option ℚ :=
  match cs with
  | [] => none
  | c :: rest =>
    if c = '-' then (pyFloatMag? rest).map (fun q => -q)
    else if c = '+' then pyFloatMag? rest
    else pyFloatMag? (c :: rest)

/-- Round half to even to the nearest integer, the rounding used by fixed
precision float formatting. -/
def rhe (q : ℚ) : ℤ :=
  if q - ⌊q⌋ < 1 / 2 then ⌊q⌋
  else if 1 / 2 < q - ⌊q⌋ then ⌊q⌋ + 1
  else if ⌊q⌋ % 2 = 0 then ⌊q⌋ else ⌊q⌋ + 1

/-- Python fixed-point formatting with one decimal, the f-string .1f format,
on the rational model of the float value. -/
def renderFixed1 (q : ℚ) : List Char :=
  let t := rhe (q * 10)
  (if t < 0 then ['-'] else []) ++
    natDigits (t.natAbs / 10) ++ '.' :: [digitChar (t.natAbs % 10)]

/-- Python fixed-point formatting with two decimals, the f-string .2f format,
on the rational model of the float value. -/
def renderFixed2 (q : ℚ) : List Char :=
  let t := rhe (q * 100)
  (if t < 0 then ['-'] else []) ++
    natDigits (t.natAbs / 100) ++
      '.' :: [digitChar (t.natAbs % 100 / 10), digitChar (t.natAbs % 10)]

/-- A sensor reading as passed to the radio layer: the fields of the wire
format, read from the reading dict by LoRaTransmitter._format_message.
Optional float fields are modelled as optional rationals. -/
structure Reading where
  station_id : List Char
  timestamp : List Char
  raw_distance_mm : Int
  snow_depth_mm : Int
  sensor_temp_c : Option ℚ
  battery_voltage : Option ℚ
deriving DecidableEq, Repr

/-- Wire text of the optional temperature: a dash when absent, otherwise the
one-decimal fixed rendering (the inline conditional of _format_message). -/
def tempField : Option ℚ → List Char
  | none => ['-']
  | some q => renderFixed1 q

/-- Wire text of the optional battery voltage: a dash when absent, otherwise
the two-decimal fixed rendering (the inline conditional of _format_message). -/
def batField : Option ℚ → List Char
  | none => ['-']
  | some q => renderFixed2 q

/-- LoRaTransmitter._format_message: the six comma-joined wire fields, with
absent optional floats serialised as a dash, temperature at one decimal and
battery voltage at two decimals.  (The dict-lookup defaults of the source are
never taken here because the Reading record carries every key.) -/
def formatMessage (r : Reading) : List Char :=
  joinComma
    [r.station_id,
     r.timestamp,
     renderInt r.raw_distance_mm,
     renderInt r.snow_depth_mm,
     tempField r.sensor_temp_c,
     batField r.battery_voltage]

/-- A decode failure of LoRaReceiver._parse_message: the ValueError raised
for a wrong field count, by int(), or by float(). -/
inductive ParseError where
  | malformed (msg : List Char)
  | badInt (field : List Char)
  | badFloat (field : List Char)
deriving DecidableEq, Repr

/-- The decoded message dictionary built by LoRaReceiver._parse_message. -/
structure ParsedMsg where
  station_id : List Char
  timestamp : List Char
  raw_distance_mm : Int
  snow_depth_mm : Int
  sensor_temp_c : Option ℚ
  battery_voltage : Option ℚ
deriving DecidableEq, Repr

deriving instance DecidableEq for Except

/-- Python `int(field)` under the except-to-ValueError discipline. -/
def parseIntE (field : List Char) : Except ParseError Int :=
  match pyInt? field with
  | some i => .ok i
  | none => .error (.badInt field)

/-- The optional-float convention of the decoder: a dash is None, anything
else goes through Python `float(field)`. -/
def parseOptFloat (field : List Char) : Except ParseError (Option ℚ) :=
  if field = ['-'] then .ok none
  else
    match pyFloat? field with
    | some q => .ok (some q)
    | none => .error (.badFloat field)

/-- LoRaReceiver._parse_message: split on commas, strip every field, demand
exactly six fields, then parse the numeric fields in source order. -/
def parseMessage (msg : List Char) : Except ParseError ParsedMsg :=
  let parts := (splitComma msg).map pyStrip
  if parts.length = 6 then
    (parseIntE (parts.getD 2 [])).bind fun di =>
      (parseIntE (parts.getD 3 [])).bind fun sdi =>
        (parseOptFloat (parts.getD 4 [])).bind fun tv =>
          (parseOptFloat (parts.getD 5 [])).map fun bv =>
            { station_id := parts.getD 0 []
              timestamp := parts.getD 1 []
              raw_distance_mm := di
              snow_depth_mm := sdi
              sensor_temp_c := tv
              battery_voltage := bv }
  else .error (.malformed msg)

theorem digitVal_digitChar (d : Nat) (h : d < 10) : digitVal (digitChar d) = d := by
  interval_cases d <;> rfl

theorem isDigitChar_digitChar (d : Nat) (h : d < 10) : isDigitChar (digitChar d) = true := by
  interval_cases d <;> rfl

theorem digitsValFrom_append (xs ys : List Char) :
    ∀ acc, digitsValFrom acc (xs ++ ys) = digitsValFrom (digitsValFrom acc xs) ys := by
  induction xs with
  | nil => intro acc; rfl
  | cons c cs ih => intro acc; exact ih (10 * acc + digitVal c)

theorem digitsValFrom_eq (cs : List Char) :
    ∀ acc, digitsValFrom acc cs = acc * 10 ^ cs.length + digitsVal cs := by
  induction cs with
  | nil => intro acc; show acc = acc * 10 ^ 0 + 0; ring
  | cons c cs ih =>
    intro acc
    have h1 : digitsValFrom acc (c :: cs) = digitsValFrom (10 * acc + digitVal c) cs := rfl
    have h2 : digitsVal (c :: cs) = digitsValFrom (10 * 0 + digitVal c) cs := rfl
    rw [h1, ih, h2, ih, List.length_cons]
    ring

theorem digitsVal_append (xs ys : List Char) :
    digitsVal (xs ++ ys) = digitsVal xs * 10 ^ ys.length + digitsVal ys := by
  have h1 : digitsVal (xs ++ ys) = digitsValFrom (digitsValFrom 0 xs) ys :=
    digitsValFrom_append xs ys 0
  rw [h1, digitsValFrom_eq ys (digitsValFrom 0 xs)]
  rfl

theorem digitsVal_singleton (c : Char) : digitsVal [c] = digitVal c := by
  show 10 * 0 + digitVal c = digitVal c
  omega

theorem digitsVal_pair (a b : Char) : digitsVal [a, b] = 10 * digitVal a + digitVal b := by
  show 10 * (10 * 0 + digitVal a) + digitVal b = 10 * digitVal a + digitVal b
  omega

theorem natDigitsAux_fuel (n : Nat) :
    ∀ f1 f2, n < f1 → n < f2 → natDigitsAux f1 n = natDigitsAux f2 n := by
  induction n using Nat.strong_induction_on with
  | _ n ih =>
    intro f1 f2 h1 h2
    obtain ⟨a, rfl⟩ : ∃ a, f1 = a + 1 := ⟨f1 - 1, by omega⟩
    obtain ⟨b, rfl⟩ : ∃ b, f2 = b + 1 := ⟨f2 - 1, by omega⟩
    show (if n < 10 then [digitChar n] else natDigitsAux a (n / 10) ++ [digitChar (n % 10)]) =
      (if n < 10 then [digitChar n] else natDigitsAux b (n / 10) ++ [digitChar (n % 10)])
    by_cases hn : n < 10
    · rw [if_pos hn, if_pos hn]
    · rw [if_neg hn, if_neg hn]
      have hdiv : n / 10 < n := by omega
      rw [ih (n / 10) hdiv a b (by omega) (by omega)]

theorem natDigits_low {n : Nat} (h : n < 10) : natDigits n = [digitChar n] := by
  show (if n < 10 then [digitChar n] else natDigitsAux n (n / 10) ++ [digitChar (n % 10)]) =
    [digitChar n]
  rw [if_pos h]

theorem natDigits_high {n : Nat} (h : 10 ≤ n) :
    natDigits n = natDigits (n / 10) ++ [digitChar (n % 10)] := by
  have h1 : natDigits n = natDigitsAux n (n / 10) ++ [digitChar (n % 10)] := by
    show (if n < 10 then [digitChar n] else natDigitsAux n (n / 10) ++ [digitChar (n % 10)]) = _
    rw [if_neg (Nat.not_lt.2 h)]
  rw [h1, natDigits, natDigitsAux_fuel (n / 10) n (n / 10 + 1) (by omega) (by omega)]

theorem natDigits_digits (n : Nat) : ∀ c ∈ natDigits n, isDigitChar c = true := by
  induction n using Nat.strong_induction_on with
  | _ n ih =>
    intro c hc
    by_cases hn : n < 10
    · rw [natDigits_low hn] at hc
      simp at hc
      subst hc
      exact isDigitChar_digitChar n hn
    · rw [natDigits_high (by omega)] at hc
      rcases List.mem_append.1 hc with h | h
      · exact ih (n / 10) (by omega) c h
      · simp at h
        subst h
        exact isDigitChar_digitChar _ (by omega)

theorem natDigits_ne_nil (n : Nat) : natDigits n ≠ [] := by
  by_cases hn : n < 10
  · rw [natDigits_low hn]; simp
  · rw [natDigits_high (by omega)]; simp

theorem digitsVal_natDigits (n : Nat) : digitsVal (natDigits n) = n := by
  induction n using Nat.strong_induction_on with
  | _ n ih =>
    by_cases hn : n < 10
    · rw [natDigits_low hn, digitsVal_singleton, digitVal_digitChar n hn]
    · rw [natDigits_high (by omega), digitsVal_append,
        ih (n / 10) (by omega), digitsVal_singleton,
        digitVal_digitChar _ (by omega)]
      simp only [List.length_singleton]
      omega

theorem digit_ne {c : Char} (h : isDigitChar c = true) :
    c ≠ ',' ∧ c ≠ '-' ∧ c ≠ '+' ∧ c ≠ '.' ∧ c ≠ 'e' ∧ c ≠ 'E' := by
  refine ⟨?_, ?_, ?_, ?_, ?_, ?_⟩ <;> rintro rfl <;> exact absurd h (by decide)

theorem isPySpace_of_digit {c : Char} (h : isDigitChar c = true) : isPySpace c = false := by
  cases hc : isPySpace c
  · rfl
  · exfalso
    simp only [isPySpace, Bool.or_eq_true, decide_eq_true_eq] at hc
    rcases hc with ((((rfl | rfl) | rfl) | rfl) | rfl) | rfl <;> exact absurd h (by decide)

theorem takeWhile_all {p : Char → Bool} :
    ∀ cs : List Char, (∀ c ∈ cs, p c = true) → cs.takeWhile p = cs := by
  intro cs h
  induction cs with
  | nil => rfl
  | cons c cs ih =>
    rw [List.takeWhile_cons, h c (List.mem_cons_self c cs), if_pos rfl]
    rw [ih fun x hx => h x (List.mem_cons_of_mem c hx)]

theorem dropWhile_all {p : Char → Bool} :
    ∀ cs : List Char, (∀ c ∈ cs, p c = true) → cs.dropWhile p = [] := by
  intro cs h
  induction cs with
  | nil => rfl
  | cons c cs ih =>
    rw [List.dropWhile_cons, h c (List.mem_cons_self c cs), if_pos rfl]
    exact ih fun x hx => h x (List.mem_cons_of_mem c hx)

theorem takeWhile_append_stop {p : Char → Bool} (xs : List Char) (y : Char) (ys : List Char)
    (hxs : ∀ c ∈ xs, p c = true) (hy : p y = false) :
    ((xs ++ y :: ys).takeWhile p) = xs := by
  induction xs with
  | nil => simp [List.takeWhile_cons, hy]
  | cons c cs ih =>
    rw [List.cons_append, List.takeWhile_cons, hxs c (List.mem_cons_self c cs), if_pos rfl]
    rw [ih fun x hx => hxs x (List.mem_cons_of_mem c hx)]

theorem dropWhile_append_stop {p : Char → Bool} (xs : List Char) (y : Char) (ys : List Char)
    (hxs : ∀ c ∈ xs, p c = true) (hy : p y = false) :
    ((xs ++ y :: ys).dropWhile p) = y :: ys := by
  induction xs with
  | nil => simp [List.dropWhile_cons, hy]
  | cons c cs ih =>
    rw [List.cons_append, List.dropWhile_cons, hxs c (List.mem_cons_self c cs), if_pos rfl]
    exact ih fun x hx => hxs x (List.mem_cons_of_mem c hx)

theorem dropWhile_eq_self {p : Char → Bool} (cs : List Char)
    (h : ∀ c ∈ cs, p c = false) : cs.dropWhile p = cs := by
  cases cs with
  | nil => rfl
  | cons c cs =>
    rw [List.dropWhile_cons, h c (List.mem_cons_self c cs)]
    rfl

theorem pyStrip_no_space {cs : List Char} (h : ∀ c ∈ cs, isPySpace c = false) :
    pyStrip cs = cs := by
  unfold pyStrip
  rw [dropWhile_eq_self cs h,
    dropWhile_eq_self cs.reverse fun c hc => h c (List.mem_reverse.1 hc),
    List.reverse_reverse]

theorem splitComma_no_comma : ∀ cs : List Char, ',' ∉ cs → splitComma cs = [cs] := by
  intro cs h
  induction cs with
  | nil => rfl
  | cons c cs ih =>
    simp only [List.mem_cons, not_or] at h
    show (if c = ',' then [] :: splitComma cs
      else match splitComma cs with
        | [] => [[c]]
        | p :: ps => (c :: p) :: ps) = [c :: cs]
    rw [if_neg fun hc => h.1 hc.symm, ih h.2]

theorem splitComma_append (p t : List Char) (hp : ',' ∉ p) :
    splitComma (p ++ ',' :: t) = p :: splitComma t := by
  induction p with
  | nil =>
    show (if ',' = ',' then [] :: splitComma t
      else match splitComma t with
        | [] => [[',']]
        | q :: qs => (',' :: q) :: qs) = [] :: splitComma t
    rw [if_pos rfl]
  | cons c cs ih =>
    simp only [List.mem_cons, not_or] at hp
    rw [List.cons_append]
    show (if c = ',' then [] :: splitComma (cs ++ ',' :: t)
      else match splitComma (cs ++ ',' :: t) with
        | [] => [[c]]
        | q :: qs => (c :: q) :: qs) = (c :: cs) :: splitComma t
    rw [if_neg fun hc => hp.1 hc.symm, ih hp.2]

theorem splitComma_joinComma :
    ∀ ps : List (List Char), ps ≠ [] → (∀ p ∈ ps, ',' ∉ p) →
      splitComma (joinComma ps) = ps := by
  intro ps
  induction ps with
  | nil => intro h; exact absurd rfl h
  | cons p ps ih =>
    intro _ hmem
    cases ps with
    | nil => exact splitComma_no_comma p (hmem p (List.mem_cons_self p []))
    | cons q qs =>
      show splitComma (p ++ ',' :: joinComma (q :: qs)) = p :: q :: qs
      rw [splitComma_append p _ (hmem p (List.mem_cons_self p _))]
      rw [ih (by simp) fun x hx => hmem x (List.mem_cons_of_mem p hx)]

theorem parseDigits_natDigits (n : Nat) : parseDigits (natDigits n) = some n := by
  unfold parseDigits
  rw [if_pos ⟨natDigits_ne_nil n, List.all_eq_true.2 (natDigits_digits n)⟩,
    digitsVal_natDigits]

theorem pyInt?_renderInt (i : Int) : pyInt? (renderInt i) = some i := by
  by_cases hi : i < 0
  · have h1 : renderInt i = '-' :: natDigits i.natAbs := by
      unfold renderInt; rw [if_pos hi]
    rw [h1]
    show signDigits true (parseDigits (natDigits i.natAbs)) = some i
    rw [parseDigits_natDigits]
    show some (-(i.natAbs : Int)) = some i
    congr 1
    omega
  · have h1 : renderInt i = natDigits i.natAbs := by
      unfold renderInt; rw [if_neg hi]
    cases hnd : natDigits i.natAbs with
    | nil => exact absurd hnd (natDigits_ne_nil i.natAbs)
    | cons c cs =>
      have hc : isDigitChar c = true :=
        natDigits_digits i.natAbs c (hnd ▸ List.mem_cons_self c cs)
      rw [h1, hnd]
      show (if c = '-' then signDigits true (parseDigits cs)
        else if c = '+' then signDigits false (parseDigits cs)
        else signDigits false (parseDigits (c :: cs))) = some i
      rw [if_neg (digit_ne hc).2.1, if_neg (digit_ne hc).2.2.1, ← hnd,
        parseDigits_natDigits]
      show some ((i.natAbs : Int)) = some i
      congr 1
      omega

theorem pyFloatMag?_fixed (ip fr : List Char) (hip_ne : ip ≠ [])
    (hip : ∀ c ∈ ip, isDigitChar c = true) (hfr : ∀ c ∈ fr, isDigitChar c = true) :
    pyFloatMag? (ip ++ '.' :: fr) =
      some ((digitsVal ip : ℚ) + (digitsVal fr : ℚ) / (10 : ℚ) ^ fr.length) := by
  have h1 : (ip ++ '.' :: fr).takeWhile isDigitChar = ip :=
    takeWhile_append_stop ip '.' fr hip (by decide)
  have h2 : (ip ++ '.' :: fr).dropWhile isDigitChar = '.' :: fr :=
    dropWhile_append_stop ip '.' fr hip (by decide)
  simp [pyFloatMag?, h1, h2, takeWhile_all fr hfr, dropWhile_all fr hfr, hip_ne]

theorem nat_div_mod_ten (n : Nat) :
    ((n / 10 : Nat) : ℚ) + ((n % 10 : Nat) : ℚ) / 10 = (n : ℚ) / 10 := by
  have h : (10 : ℚ) * ((n / 10 : Nat) : ℚ) + ((n % 10 : Nat) : ℚ) = (n : ℚ) := by
    exact_mod_cast Nat.div_add_mod n 10
  field_simp
  linarith

theorem nat_div_mod_hundred (n : Nat) :
    ((n / 100 : Nat) : ℚ) + ((n % 100 : Nat) : ℚ) / 100 = (n : ℚ) / 100 := by
  have h : (100 : ℚ) * ((n / 100 : Nat) : ℚ) + ((n % 100 : Nat) : ℚ) = (n : ℚ) := by
    exact_mod_cast Nat.div_add_mod n 100
  field_simp
  linarith

theorem pyFloat?_renderFixed1 (q : ℚ) :
    pyFloat? (renderFixed1 q) = some ((rhe (q * 10) : ℚ) / 10) := by
  have hfr : ∀ c ∈ [digitChar ((rhe (q * 10)).natAbs % 10)], isDigitChar c = true := by
    intro c hc
    simp only [List.mem_singleton] at hc
    subst hc
    exact isDigitChar_digitChar _ (by omega)
  have hval : pyFloatMag?
      (natDigits ((rhe (q * 10)).natAbs / 10) ++
        '.' :: [digitChar ((rhe (q * 10)).natAbs % 10)]) =
      some (((rhe (q * 10)).natAbs : ℚ) / 10) := by
    rw [pyFloatMag?_fixed _ _ (natDigits_ne_nil _) (natDigits_digits _) hfr,
      digitsVal_natDigits, digitsVal_singleton, digitVal_digitChar _ (by omega)]
    congr 1
    rw [← nat_div_mod_ten ((rhe (q * 10)).natAbs)]
    norm_num
  by_cases ht : rhe (q * 10) < 0
  · have hr : renderFixed1 q = '-' ::
        (natDigits ((rhe (q * 10)).natAbs / 10) ++
          '.' :: [digitChar ((rhe (q * 10)).natAbs % 10)]) := by
      simp [renderFixed1, ht]
    rw [hr]
    show (pyFloatMag?
      (natDigits ((rhe (q * 10)).natAbs / 10) ++
        '.' :: [digitChar ((rhe (q * 10)).natAbs % 10)])).map (fun x => -x) =
      some ((rhe (q * 10) : ℚ) / 10)
    rw [hval, Option.map_some']
    congr 1
    have habs : (((rhe (q * 10)).natAbs : ℚ)) = -((rhe (q * 10) : ℚ)) := by
      have h1 : (((rhe (q * 10)).natAbs : ℤ)) = -(rhe (q * 10)) := by omega
      have h2 := congrArg (fun z : ℤ => (z : ℚ)) h1
      simp only [Int.cast_natCast, Int.cast_neg] at h2
      exact h2
    rw [habs]
    ring
  · have hr : renderFixed1 q =
        natDigits ((rhe (q * 10)).natAbs / 10) ++
          '.' :: [digitChar ((rhe (q * 10)).natAbs % 10)] := by
      simp [renderFixed1, ht]
    cases hnd : natDigits ((rhe (q * 10)).natAbs / 10) with
    | nil => exact absurd hnd (natDigits_ne_nil _)
    | cons c cs =>
      have hc : isDigitChar c = true :=
        natDigits_digits _ c (hnd ▸ List.mem_cons_self c cs)
      rw [hr, hnd, List.cons_append]
      show (if c = '-' then (pyFloatMag? (cs ++ '.' :: [digitChar ((rhe (q * 10)).natAbs % 10)])).map (fun x => -x)
        else if c = '+' then pyFloatMag? (cs ++ '.' :: [digitChar ((rhe (q * 10)).natAbs % 10)])
        else pyFloatMag? (c :: (cs ++ '.' :: [digitChar ((rhe (q * 10)).natAbs % 10)]))) =
        some ((rhe (q * 10) : ℚ) / 10)
      rw [if_neg (digit_ne hc).2.1, if_neg (digit_ne hc).2.2.1, ← List.cons_append, ← hnd,
        hval]
      congr 1
      have habs : (((rhe (q * 10)).natAbs : ℚ)) = ((rhe (q * 10) : ℚ)) := by
        have h1 : (((rhe (q * 10)).natAbs : ℤ)) = rhe (q * 10) := by omega
        have h2 := congrArg (fun z : ℤ => (z : ℚ)) h1
        simp only [Int.cast_natCast] at h2
        exact h2
      rw [habs]

theorem pyFloat?_renderFixed2 (q : ℚ) :
    pyFloat? (renderFixed2 q) = some ((rhe (q * 100) : ℚ) / 100) := by
  have hfr : ∀ c ∈ [digitChar ((rhe (q * 100)).natAbs % 100 / 10),
      digitChar ((rhe (q * 100)).natAbs % 10)], isDigitChar c = true := by
    intro c hc
    simp only [List.mem_cons, List.mem_singleton, List.not_mem_nil, or_false] at hc
    rcases hc with rfl | rfl
    · exact isDigitChar_digitChar _ (by omega)
    · exact isDigitChar_digitChar _ (by omega)
  have hpair : digitsVal [digitChar ((rhe (q * 100)).natAbs % 100 / 10),
      digitChar ((rhe (q * 100)).natAbs % 10)] = (rhe (q * 100)).natAbs % 100 := by
    rw [digitsVal_pair, digitVal_digitChar _ (by omega), digitVal_digitChar _ (by omega)]
    omega
  have hval : pyFloatMag?
      (natDigits ((rhe (q * 100)).natAbs / 100) ++
        '.' :: [digitChar ((rhe (q * 100)).natAbs % 100 / 10),
          digitChar ((rhe (q * 100)).natAbs % 10)]) =
      some (((rhe (q * 100)).natAbs : ℚ) / 100) := by
    rw [pyFloatMag?_fixed _ _ (natDigits_ne_nil _) (natDigits_digits _) hfr,
      digitsVal_natDigits, hpair]
    congr 1
    rw [← nat_div_mod_hundred ((rhe (q * 100)).natAbs)]
    norm_num
  by_cases ht : rhe (q * 100) < 0
  · have hr : renderFixed2 q = '-' ::
        (natDigits ((rhe (q * 100)).natAbs / 100) ++
          '.' :: [digitChar ((rhe (q * 100)).natAbs % 100 / 10),
            digitChar ((rhe (q * 100)).natAbs % 10)]) := by
      simp [renderFixed2, ht]
    rw [hr]
    show (pyFloatMag?
      (natDigits ((rhe (q * 100)).natAbs / 100) ++
        '.' :: [digitChar ((rhe (q * 100)).natAbs % 100 / 10),
          digitChar ((rhe (q * 100)).natAbs % 10)])).map (fun x => -x) =
      some ((rhe (q * 100) : ℚ) / 100)
    rw [hval, Option.map_some']
    congr 1
    have h1 : (((rhe (q * 100)).natAbs : ℤ)) = -(rhe (q * 100)) := by omega
    have h2 := congrArg (fun z : ℤ => (z : ℚ)) h1
    simp only [Int.cast_natCast, Int.cast_neg] at h2
    rw [h2]
    ring
  · have hr : renderFixed2 q =
        natDigits ((rhe (q * 100)).natAbs / 100) ++
          '.' :: [digitChar ((rhe (q * 100)).natAbs % 100 / 10),
            digitChar ((rhe (q * 100)).natAbs % 10)] := by
      simp [renderFixed2, ht]
    cases hnd : natDigits ((rhe (q * 100)).natAbs / 100) with
    | nil => exact absurd hnd (natDigits_ne_nil _)
    | cons c cs =>
      have hc : isDigitChar c = true :=
        natDigits_digits _ c (hnd ▸ List.mem_cons_self c cs)
      rw [hr, hnd, List.cons_append]
      show (if c = '-' then (pyFloatMag? (cs ++ '.' :: [digitChar ((rhe (q * 100)).natAbs % 100 / 10), digitChar ((rhe (q * 100)).natAbs % 10)])).map (fun x => -x)
        else if c = '+' then pyFloatMag? (cs ++ '.' :: [digitChar ((rhe (q * 100)).natAbs % 100 / 10), digitChar ((rhe (q * 100)).natAbs % 10)])
        else pyFloatMag? (c :: (cs ++ '.' :: [digitChar ((rhe (q * 100)).natAbs % 100 / 10), digitChar ((rhe (q * 100)).natAbs % 10)]))) =
        some ((rhe (q * 100) : ℚ) / 100)
      rw [if_neg (digit_ne hc).2.1, if_neg (digit_ne hc).2.2.1, ← List.cons_append, ← hnd,
        hval]
      congr 1
      have h1 : (((rhe (q * 100)).natAbs : ℤ)) = rhe (q * 100) := by omega
      have h2 := congrArg (fun z : ℤ => (z : ℚ)) h1
      simp only [Int.cast_natCast] at h2
      rw [h2]

theorem abs_rhe_sub (x : ℚ) : |(rhe x : ℚ) - x| ≤ 1 / 2 := by
  have h0 : ((⌊x⌋ : ℚ)) ≤ x := Int.floor_le x
  have h1 : x < (⌊x⌋ : ℚ) + 1 := Int.lt_floor_add_one x
  unfold rhe
  split_ifs with ha hb hc <;> rw [abs_le] <;> constructor <;> push_cast <;> linarith

theorem renderInt_mem {i : Int} {c : Char} (h : c ∈ renderInt i) :
    c = '-' ∨ isDigitChar c = true := by
  unfold renderInt at h
  split_ifs at h with hc
  · rcases List.mem_cons.1 h with rfl | h2
    · exact Or.inl rfl
    · exact Or.inr (natDigits_digits _ c h2)
  · exact Or.inr (natDigits_digits _ c h)

theorem renderFixed1_mem {q : ℚ} {c : Char} (h : c ∈ renderFixed1 q) :
    c = '-' ∨ c = '.' ∨ isDigitChar c = true := by
  unfold renderFixed1 at h
  simp only [List.mem_append, List.mem_cons, List.mem_singleton, List.not_mem_nil,
    or_false] at h
  rcases h with (h | h) | h | h
  · split_ifs at h
    · simp only [List.mem_singleton] at h
      exact Or.inl h
    · exact absurd h (List.not_mem_nil c)
  · exact Or.inr (Or.inr (natDigits_digits _ c h))
  · exact Or.inr (Or.inl h)
  · subst h
    exact Or.inr (Or.inr (isDigitChar_digitChar _ (by omega)))

theorem renderFixed2_mem {q : ℚ} {c : Char} (h : c ∈ renderFixed2 q) :
    c = '-' ∨ c = '.' ∨ isDigitChar c = true := by
  unfold renderFixed2 at h
  simp only [List.mem_append, List.mem_cons, List.mem_singleton, List.not_mem_nil,
    or_false] at h
  rcases h with (h | h) | h | h | h
  · split_ifs at h
    · simp only [List.mem_singleton] at h
      exact Or.inl h
    · exact absurd h (List.not_mem_nil c)
  · exact Or.inr (Or.inr (natDigits_digits _ c h))
  · exact Or.inr (Or.inl h)
  · subst h
    exact Or.inr (Or.inr (isDigitChar_digitChar _ (by omega)))
  · subst h
    exact Or.inr (Or.inr (isDigitChar_digitChar _ (by omega)))

theorem renderInt_no_comma (i : Int) : ',' ∉ renderInt i := by
  intro h
  rcases renderInt_mem h with h1 | h1 <;> exact absurd h1 (by decide)

theorem renderInt_no_space (i : Int) : ∀ c ∈ renderInt i, isPySpace c = false := by
  intro c h
  rcases renderInt_mem h with rfl | h1
  · decide
  · exact isPySpace_of_digit h1

theorem tempField_no_comma (o : Option ℚ) : ',' ∉ tempField o := by
  cases o with
  | none => decide
  | some q =>
    intro h
    rcases renderFixed1_mem h with h1 | h1 | h1 <;> exact absurd h1 (by decide)

theorem tempField_no_space (o : Option ℚ) : ∀ c ∈ tempField o, isPySpace c = false := by
  cases o with
  | none => decide
  | some q =>
    intro c h
    rcases renderFixed1_mem h with rfl | rfl | h1
    · decide
    · decide
    · exact isPySpace_of_digit h1

theorem batField_no_comma (o : Option ℚ) : ',' ∉ batField o := by
  cases o with
  | none => decide
  | some q =>
    intro h
    rcases renderFixed2_mem h with h1 | h1 | h1 <;> exact absurd h1 (by decide)

theorem batField_no_space (o : Option ℚ) : ∀ c ∈ batField o, isPySpace c = false := by
  cases o with
  | none => decide
  | some q =>
    intro c h
    rcases renderFixed2_mem h with rfl | rfl | h1
    · decide
    · decide
    · exact isPySpace_of_digit h1

theorem renderFixed1_ne_dash (q : ℚ) : renderFixed1 q ≠ ['-'] := by
  intro h
  have hlen := congrArg List.length h
  simp only [renderFixed1, List.length_append, List.length_cons, List.length_singleton] at hlen
  have hpos : 0 < (natDigits ((rhe (q * 10)).natAbs / 10)).length :=
    List.length_pos.2 (natDigits_ne_nil _)
  split_ifs at hlen <;> simp at hlen

theorem renderFixed2_ne_dash (q : ℚ) : renderFixed2 q ≠ ['-'] := by
  intro h
  have hlen := congrArg List.length h
  simp only [renderFixed2, List.length_append, List.length_cons, List.length_singleton] at hlen
  have hpos : 0 < (natDigits ((rhe (q * 100)).natAbs / 100)).length :=
    List.length_pos.2 (natDigits_ne_nil _)
  split_ifs at hlen <;> simp at hlen

theorem parseIntE_renderInt (i : Int) : parseIntE (renderInt i) = .ok i := by
  unfold parseIntE
  rw [pyInt?_renderInt]

theorem parseOptFloat_tempField (o : Option ℚ) :
    parseOptFloat (tempField o) = .ok (o.map fun q => ((rhe (q * 10) : ℚ) / 10)) := by
  cases o with
  | none => rfl
  | some q =>
    unfold parseOptFloat tempField
    rw [if_neg (renderFixed1_ne_dash q), pyFloat?_renderFixed1]
    rfl

theorem parseOptFloat_batField (o : Option ℚ) :
    parseOptFloat (batField o) = .ok (o.map fun q => ((rhe (q * 100) : ℚ) / 100)) := by
  cases o with
  | none => rfl
  | some q =>
    unfold parseOptFloat batField
    rw [if_neg (renderFixed2_ne_dash q), pyFloat?_renderFixed2]
    rfl

/-- C1 (amended): for every Reading whose station_id is non-empty, comma-free
and invariant under stripping, and whose timestamp is comma-free and invariant
under stripping, decoding the encoded wire line reproduces all six wire fields:
the string fields and the integer fields exactly, and each present optional
float as its round-half-even quantisation at the stated wire precision (one
decimal for temperature, two for battery voltage), which is within 1/20
respectively 1/200 of the original value; absent optionals come back as None. -/
theorem C1_round_trip (r : Reading)
    (_hsid_ne : r.station_id ≠ [])
    (hsid_comma : ',' ∉ r.station_id)
    (hsid_strip : pyStrip r.station_id = r.station_id)
    (hts_comma : ',' ∉ r.timestamp)
    (hts_strip : pyStrip r.timestamp = r.timestamp) :
    parseMessage (formatMessage r) = Except.ok
      { station_id := r.station_id
        timestamp := r.timestamp
        raw_distance_mm := r.raw_distance_mm
        snow_depth_mm := r.snow_depth_mm
        sensor_temp_c := r.sensor_temp_c.map (fun q => ((rhe (q * 10) : ℚ) / 10))
        battery_voltage := r.battery_voltage.map (fun q => ((rhe (q * 100) : ℚ) / 100)) } ∧
    (∀ q ∈ r.sensor_temp_c, |((rhe (q * 10) : ℚ) / 10) - q| ≤ 1 / 20) ∧
    (∀ q ∈ r.battery_voltage, |((rhe (q * 100) : ℚ) / 100) - q| ≤ 1 / 200) := by
  refine ⟨?_, ?_, ?_⟩
  · have hsplit : splitComma (formatMessage r) =
        [r.station_id, r.timestamp, renderInt r.raw_distance_mm,
          renderInt r.snow_depth_mm, tempField r.sensor_temp_c,
          batField r.battery_voltage] := by
      apply splitComma_joinComma _ (by simp)
      intro p hp
      simp only [List.mem_cons, List.not_mem_nil, or_false] at hp
      rcases hp with rfl | rfl | rfl | rfl | rfl | rfl
      · exact hsid_comma
      · exact hts_comma
      · exact renderInt_no_comma _
      · exact renderInt_no_comma _
      · exact tempField_no_comma _
      · exact batField_no_comma _
    unfold parseMessage
    rw [hsplit]
    simp only [List.map_cons, List.map_nil]
    rw [hsid_strip, hts_strip,
      pyStrip_no_space (renderInt_no_space r.raw_distance_mm),
      pyStrip_no_space (renderInt_no_space r.snow_depth_mm),
      pyStrip_no_space (tempField_no_space r.sensor_temp_c),
      pyStrip_no_space (batField_no_space r.battery_voltage)]
    rw [if_pos (by simp)]
    have hg0 : [r.station_id, r.timestamp, renderInt r.raw_distance_mm,
        renderInt r.snow_depth_mm, tempField r.sensor_temp_c,
        batField r.battery_voltage].getD 0 [] = r.station_id := rfl
    have hg1 : [r.station_id, r.timestamp, renderInt r.raw_distance_mm,
        renderInt r.snow_depth_mm, tempField r.sensor_temp_c,
        batField r.battery_voltage].getD 1 [] = r.timestamp := rfl
    have hg2 : [r.station_id, r.timestamp, renderInt r.raw_distance_mm,
        renderInt r.snow_depth_mm, tempField r.sensor_temp_c,
        batField r.battery_voltage].getD 2 [] = renderInt r.raw_distance_mm := rfl
    have hg3 : [r.station_id, r.timestamp, renderInt r.raw_distance_mm,
        renderInt r.snow_depth_mm, tempField r.sensor_temp_c,
        batField r.battery_voltage].getD 3 [] = renderInt r.snow_depth_mm := rfl
    have hg4 : [r.station_id, r.timestamp, renderInt r.raw_distance_mm,
        renderInt r.snow_depth_mm, tempField r.sensor_temp_c,
        batField r.battery_voltage].getD 4 [] = tempField r.sensor_temp_c := rfl
    have hg5 : [r.station_id, r.timestamp, renderInt r.raw_distance_mm,
        renderInt r.snow_depth_mm, tempField r.sensor_temp_c,
        batField r.battery_voltage].getD 5 [] = batField r.battery_voltage := rfl
    simp only [hg0, hg1, hg2, hg3, hg4, hg5]
    rw [parseIntE_renderInt, parseIntE_renderInt, parseOptFloat_tempField,
      parseOptFloat_batField]
    rfl
  · intro q hq
    have hb := abs_rhe_sub (q * 10)
    have heq : ((rhe (q * 10) : ℚ) / 10 - q) = ((rhe (q * 10) : ℚ) - q * 10) / 10 := by
      ring
    rw [heq, abs_div, abs_of_pos (show (0 : ℚ) < 10 by norm_num)]
    linarith
  · intro q hq
    have hb := abs_rhe_sub (q * 100)
    have heq : ((rhe (q * 100) : ℚ) / 100 - q) = ((rhe (q * 100) : ℚ) - q * 100) / 100 := by
      ring
    rw [heq, abs_div, abs_of_pos (show (0 : ℚ) < 100 by norm_num)]
    linarith

/-- C1 counterexample: the claim as frozen only demands a non-empty comma-free
station_id, but the reading whose station_id is a blank followed by A is
decoded back with the blank stripped, so the station_id field does not
round-trip exactly. -/
theorem C1_cex :
    (parseMessage (formatMessage
      { station_id := [' ', 'A'], timestamp := "2024-01-01T00:00:00Z".data,
        raw_distance_mm := 1800, snow_depth_mm := 200,
        sensor_temp_c := none, battery_voltage := none })).toOption.map
      ParsedMsg.station_id ≠ some [' ', 'A'] := by
  decide

/-- C1 witness: the amended round trip evaluated at the documentation scenario
station STN_01. -/
theorem C1_round_trip_witness :
    parseMessage (formatMessage
      { station_id := "STN_01".data, timestamp := "2024-01-01T00:00:00Z".data,
        raw_distance_mm := 1850, snow_depth_mm := 150,
        sensor_temp_c := none, battery_voltage := none }) = Except.ok
      { station_id := "STN_01".data
        timestamp := "2024-01-01T00:00:00Z".data
        raw_distance_mm := 1850
        snow_depth_mm := 150
        sensor_temp_c := none
        battery_voltage := none } ∧
    (∀ q ∈ (none : Option ℚ), |((rhe (q * 10) : ℚ) / 10) - q| ≤ 1 / 20) ∧
    (∀ q ∈ (none : Option ℚ), |((rhe (q * 100) : ℚ) / 100) - q| ≤ 1 / 200) :=
  C1_round_trip
    { station_id := "STN_01".data, timestamp := "2024-01-01T00:00:00Z".data,
      raw_distance_mm := 1850, snow_depth_mm := 150,
      sensor_temp_c := none, battery_voltage := none }
    (by decide) (by decide) (by decide) (by decide) (by decide)

theorem exc_bind_ok {e a b : Type} (x : a) (f : a → Except e b) :
    (Except.ok x : Except e a).bind f = f x := rfl

theorem exc_bind_error {e a b : Type} (err : e) (f : a → Except e b) :
    (Except.error err : Except e a).bind f = Except.error err := rfl

theorem exc_map_ok {e a b : Type} (x : a) (f : a → b) :
    (Except.ok x : Except e a).map f = Except.ok (f x) := rfl

theorem exc_map_error {e a b : Type} (err : e) (f : a → b) :
    (Except.error err : Except e a).map f = Except.error err := rfl

theorem exc_isOk_ok {e a : Type} (x : a) : (Except.ok x : Except e a).isOk = true := rfl

theorem exc_isOk_error {e a : Type} (err : e) :
    (Except.error err : Except e a).isOk = false := rfl

theorem parseIntE_of_none {x : List Char} (h : pyInt? x = none) :
    parseIntE x = .error (.badInt x) := by
  unfold parseIntE
  rw [h]

theorem parseIntE_of_some {x : List Char} {i : Int} (h : pyInt? x = some i) :
    parseIntE x = .ok i := by
  unfold parseIntE
  rw [h]

theorem parseOptFloat_of_dash : parseOptFloat ['-'] = .ok none := rfl

theorem parseOptFloat_of_none {x : List Char} (hx : x ≠ ['-']) (h : pyFloat? x = none) :
    parseOptFloat x = .error (.badFloat x) := by
  unfold parseOptFloat
  rw [if_neg hx, h]

theorem parseOptFloat_of_some {x : List Char} {q : ℚ} (hx : x ≠ ['-'])
    (h : pyFloat? x = some q) : parseOptFloat x = .ok (some q) := by
  unfold parseOptFloat
  rw [if_neg hx, h]

theorem list_len6 {α : Type} {l : List α} (h : l.length = 6) :
    ∃ a b c d e f, l = [a, b, c, d, e, f] := by
  rcases l with _ | ⟨a, _ | ⟨b, _ | ⟨c, _ | ⟨d, _ | ⟨e, _ | ⟨f, rest⟩⟩⟩⟩⟩⟩ <;>
    simp only [List.length_cons, List.length_nil] at h
  · omega
  · omega
  · omega
  · omega
  · omega
  · omega
  · have hr : rest.length = 0 := by omega
    rw [List.length_eq_zero] at hr
    subst hr
    exact ⟨a, b, c, d, e, f, rfl⟩

/-- C2: decode rejects any line whose trimmed comma-field count differs from
six with the malformed-message error, and on a six-field line it fails exactly
when a distance or depth field is not integer text or a non-dash temperature
or battery field is not float text. -/
theorem C2_decode_errors (msg : List Char) :
    (((splitComma msg).map pyStrip).length ≠ 6 →
      parseMessage msg = .error (.malformed msg)) ∧
    (((splitComma msg).map pyStrip).length = 6 →
      ((parseMessage msg).isOk = true ↔
        (pyInt? (((splitComma msg).map pyStrip).getD 2 [])).isSome = true ∧
        (pyInt? (((splitComma msg).map pyStrip).getD 3 [])).isSome = true ∧
        (((splitComma msg).map pyStrip).getD 4 [] = ['-'] ∨
          (pyFloat? (((splitComma msg).map pyStrip).getD 4 [])).isSome = true) ∧
        (((splitComma msg).map pyStrip).getD 5 [] = ['-'] ∨
          (pyFloat? (((splitComma msg).map pyStrip).getD 5 [])).isSome = true))) := by
  constructor
  · intro h
    unfold parseMessage
    rw [if_neg h]
  · intro h6
    obtain ⟨p0, p1, p2, p3, p4, p5, hp⟩ := list_len6 h6
    unfold parseMessage
    rw [if_pos h6, hp]
    have hg0 : [p0, p1, p2, p3, p4, p5].getD 0 [] = p0 := rfl
    have hg1 : [p0, p1, p2, p3, p4, p5].getD 1 [] = p1 := rfl
    have hg2 : [p0, p1, p2, p3, p4, p5].getD 2 [] = p2 := rfl
    have hg3 : [p0, p1, p2, p3, p4, p5].getD 3 [] = p3 := rfl
    have hg4 : [p0, p1, p2, p3, p4, p5].getD 4 [] = p4 := rfl
    have hg5 : [p0, p1, p2, p3, p4, p5].getD 5 [] = p5 := rfl
    simp only [hg0, hg1, hg2, hg3, hg4, hg5]
    cases h2 : pyInt? p2 with
    | none =>
      rw [parseIntE_of_none h2, exc_bind_error, exc_isOk_error]
      simp [h2]
    | some i2 =>
      rw [parseIntE_of_some h2, exc_bind_ok]
      cases h3 : pyInt? p3 with
      | none =>
        rw [parseIntE_of_none h3, exc_bind_error, exc_isOk_error]
        simp [h2, h3]
      | some i3 =>
        rw [parseIntE_of_some h3, exc_bind_ok]
        by_cases h4d : p4 = ['-']
        · rw [h4d, parseOptFloat_of_dash, exc_bind_ok]
          by_cases h5d : p5 = ['-']
          · rw [h5d, parseOptFloat_of_dash, exc_map_ok, exc_isOk_ok]
            simp [h2, h3]
          · cases h5 : pyFloat? p5 with
            | none =>
              rw [parseOptFloat_of_none h5d h5, exc_map_error, exc_isOk_error]
              simp [h2, h3, h5d, h5]
            | some q5 =>
              rw [parseOptFloat_of_some h5d h5, exc_map_ok, exc_isOk_ok]
              simp [h2, h3, h5]
        · cases h4 : pyFloat? p4 with
          | none =>
            rw [parseOptFloat_of_none h4d h4, exc_bind_error, exc_isOk_error]
            simp [h2, h3, h4d, h4]
          | some q4 =>
            rw [parseOptFloat_of_some h4d h4, exc_bind_ok]
            by_cases h5d : p5 = ['-']
            · rw [h5d, parseOptFloat_of_dash, exc_map_ok, exc_isOk_ok]
              simp [h2, h3, h4]
            · cases h5 : pyFloat? p5 with
              | none =>
                rw [parseOptFloat_of_none h5d h5, exc_map_error, exc_isOk_error]
                simp [h2, h3, h4, h5d, h5]
              | some q5 =>
                rw [parseOptFloat_of_some h5d h5, exc_map_ok, exc_isOk_ok]
                simp [h2, h3, h4, h5]

/-- C2 witness: a three-field line is rejected as malformed. -/
theorem C2_decode_errors_witness :
    ((splitComma "a,b,c".data).map pyStrip).length ≠ 6 ∧
      parseMessage "a,b,c".data = .error (.malformed "a,b,c".data) :=
  ⟨by decide, (C2_decode_errors "a,b,c".data).1 (by decide)⟩

/-- A CSV row of a ledger partition as csv.DictReader yields it: the eight
FIELDS of LocalStorage, all as strings. -/
structure CsvRow where
  timestamp : String
  station_id : String
  raw_distance_mm : String
  snow_depth_mm : String
  sensor_temp_c : String
  battery_voltage : String
  signal_quality : String
  transmission_status : String
deriving DecidableEq, Repr

/-- The per-row update of LocalStorage.mark_as_sent: a row whose timestamp is
among the targets and whose status is local_only gets status success. -/
def markRow (targets : List String) (row : CsvRow) : CsvRow :=
  if row.timestamp ∈ targets ∧ row.transmission_status = "local_only"
  then { row with transmission_status := "success" } else row

/-- One partition-file pass of mark_as_sent: the updated row list plus the
changed flag; the source rewrites the file through a temp file and an atomic
replace exactly when the flag holds. -/
def markFile (targets : List String) (rows : List CsvRow) : List CsvRow × Bool :=
  (rows.map (markRow targets),
   rows.any fun row =>
     decide (row.timestamp ∈ targets ∧ row.transmission_status = "local_only"))

/-- LocalStorage.mark_as_sent over the partition files of the station: an
empty timestamp list returns immediately, otherwise every file is processed
with markFile; list membership models membership in set(timestamps). -/
def markAsSent (timestamps : List String) (files : List (List CsvRow)) :
    List (List CsvRow × Bool) :=
  if timestamps = [] then files.map (fun rows => (rows, false))
  else files.map (markFile timestamps)

theorem markRow_hit {ts : List String} {r : CsvRow}
    (h : r.timestamp ∈ ts ∧ r.transmission_status = "local_only") :
    markRow ts r = { r with transmission_status := "success" } := by
  unfold markRow
  rw [if_pos h]

theorem markRow_miss {ts : List String} {r : CsvRow}
    (h : ¬(r.timestamp ∈ ts ∧ r.transmission_status = "local_only")) :
    markRow ts r = r := by
  unfold markRow
  rw [if_neg h]

theorem markRow_dedup (ts : List String) (r : CsvRow) :
    markRow ts.dedup r = markRow ts r := by
  unfold markRow
  simp only [List.mem_dedup]

/-- C3: mark_as_sent flips transmission_status from local_only to success
exactly on the rows whose timestamp is in the target list; every other row is
returned unchanged and with no other field touched; a file is flagged for the
atomic rewrite exactly when some row was flipped; duplicate timestamps act as
their deduplication; the empty list is a no-op over all files, and otherwise
mark_as_sent is the per-file pass mapped over the partitions. -/
theorem C3_mark_as_sent (ts : List String) (rows : List CsvRow) :
    List.Forall₂ (fun r r' =>
        (r.timestamp ∈ ts ∧ r.transmission_status = "local_only" →
          r'.timestamp = r.timestamp ∧ r'.station_id = r.station_id ∧
          r'.raw_distance_mm = r.raw_distance_mm ∧
          r'.snow_depth_mm = r.snow_depth_mm ∧
          r'.sensor_temp_c = r.sensor_temp_c ∧
          r'.battery_voltage = r.battery_voltage ∧
          r'.signal_quality = r.signal_quality ∧
          r'.transmission_status = "success") ∧
        (¬(r.timestamp ∈ ts ∧ r.transmission_status = "local_only") → r' = r))
      rows (markFile ts rows).1 ∧
    ((markFile ts rows).2 = true ↔
      ∃ r ∈ rows, r.timestamp ∈ ts ∧ r.transmission_status = "local_only") ∧
    markFile ts.dedup rows = markFile ts rows ∧
    (∀ files : List (List CsvRow), ts ≠ [] →
      markAsSent ts files = files.map (markFile ts)) ∧
    (∀ files : List (List CsvRow),
      markAsSent [] files = files.map (fun rows2 => (rows2, false))) := by
  refine ⟨?_, ?_, ?_, ?_, ?_⟩
  · induction rows with
    | nil => exact List.Forall₂.nil
    | cons r rest ih =>
      refine List.Forall₂.cons ⟨?_, ?_⟩ ih
      · intro h
        rw [markRow_hit h]
        exact ⟨rfl, rfl, rfl, rfl, rfl, rfl, rfl, rfl⟩
      · intro h
        rw [markRow_miss h]
  · unfold markFile
    simp [List.any_eq_true]
  · unfold markFile
    congr 1
    · exact List.map_congr_left fun r _ => markRow_dedup ts r
    · simp only [List.mem_dedup]
  · intro files hne
    unfold markAsSent
    rw [if_neg hne]
  · intro files
    rfl

/-- A calendar date. -/
structure CivilDate where
  year : Int
  month : Nat
  day : Nat
deriving DecidableEq, Repr

/-- The components datetime.fromisoformat yields: a naive or offset-aware
timestamp (microseconds are not modelled; the repository writes none). -/
structure PyDateTime where
  year : Int
  month : Nat
  day : Nat
  hour : Nat
  minute : Nat
  second : Nat
  offsetMinutes : Option Int
deriving DecidableEq, Repr

/-- Value of two digit characters, when both are digits. -/
def digit2? (a b : Char) : Option Nat :=
  if isDigitChar a = true ∧ isDigitChar b = true
  then some (10 * digitVal a + digitVal b) else none

/-- Value of four digit characters, when all are digits. -/
def digit4? (a b c d : Char) : Option Nat :=
  if isDigitChar a = true ∧ isDigitChar b = true ∧ isDigitChar c = true ∧
      isDigitChar d = true
  then some (1000 * digitVal a + 100 * digitVal b + 10 * digitVal c + digitVal d)
  else none

/-- Trailing timezone of the isoformat grammar: nothing, or a sign and
HH:MM, bounded as fromisoformat requires. -/
def parseTZ? (y : Int) (mo dy hh mi ss : Nat) : List Char → Option PyDateTime
  | [] => some ⟨y, mo, dy, hh, mi, ss, none⟩
  | sign :: o1 :: o2 :: ':' :: o3 :: o4 :: [] =>
    if sign = '+' ∨ sign = '-' then
      match digit2? o1 o2, digit2? o3 o4 with
      | some oh, some om =>
        if oh ≤ 23 ∧ om ≤ 59 then
          some ⟨y, mo, dy, hh, mi, ss,
            some (if sign = '-' then -((oh * 60 + om : Nat) : Int)
              else ((oh * 60 + om : Nat) : Int))⟩
        else none
      | _, _ => none
    else none
  | _ => none

/-- Time-of-day part of the isoformat grammar: HH:MM or HH:MM:SS, then an
optional timezone. -/
def parseTime? (y : Int) (mo dy : Nat) : List Char → Option PyDateTime
  | h1 :: h2 :: ':' :: mi1 :: mi2 :: rest =>
    match digit2? h1 h2, digit2? mi1 mi2 with
    | some hh, some mi =>
      if hh ≤ 23 ∧ mi ≤ 59 then
        match rest with
        | ':' :: s1 :: s2 :: rest2 =>
          match digit2? s1 s2 with
          | some ss => if ss ≤ 59 then parseTZ? y mo dy hh mi ss rest2 else none
          | none => none
        | rest2 => parseTZ? y mo dy hh mi 0 rest2
      else none
    | _, _ => none
  | _ => none

/-- Python datetime.fromisoformat on the subset of ISO-8601 the pipeline
emits: YYYY-MM-DD, optionally a separator and HH:MM[:SS], optionally a sign
and HH:MM offset (fractional seconds are not modelled; per-month day maxima
are approximated by the bound 31). -/
def parseISO? : List Char → Option PyDateTime
  | y1 :: y2 :: y3 :: y4 :: '-' :: m1 :: m2 :: '-' :: d1 :: d2 :: rest =>
    match digit4? y1 y2 y3 y4, digit2? m1 m2, digit2? d1 d2 with
    | some y, some mo, some dy =>
      if 1 ≤ mo ∧ mo ≤ 12 ∧ 1 ≤ dy ∧ dy ≤ 31 then
        match rest with
        | [] => some ⟨(y : Int), mo, dy, 0, 0, 0, none⟩
        | _sep :: timecs => parseTime? (y : Int) mo dy timecs
      else none
    | _, _, _ => none
  | _ => none

/-- Day count of a civil date from the day-numbering epoch, the standard
civil-from-days algorithm. -/
def daysFromCivil (y : Int) (m d : Nat) : Int :=
  let y2 := if m ≤ 2 then y - 1 else y
  let era := Int.fdiv y2 400
  let yoe := (y2 - era * 400).toNat
  let mp := if m ≤ 2 then m + 9 else m - 3
  let doy := (153 * mp + 2) / 5 + d - 1
  let doe := yoe * 365 + yoe / 4 - yoe / 100 + doy
  era * 146097 + (doe : Int) - 719468

/-- Civil date of a day count, the standard days-from-civil inverse. -/
def civilFromDays (z0 : Int) : CivilDate :=
  let z := z0 + 719468
  let era := Int.fdiv z 146097
  let doe := (z - era * 146097).toNat
  let yoe := (doe - doe / 1460 + doe / 36524 - doe / 146096) / 365
  let y := (yoe : Int) + era * 400
  let doy := doe - (365 * yoe + yoe / 4 - yoe / 100)
  let mp := (5 * doy + 2) / 153
  let d := doy - (153 * mp + 2) / 5 + 1
  let m := if mp < 10 then mp + 3 else mp - 9
  ⟨if m ≤ 2 then y + 1 else y, m, d⟩

/-- Two-digit zero-padded decimal text. -/
def pad2 (n : Nat) : List Char := [digitChar (n / 10 % 10), digitChar (n % 10)]

/-- Four-digit zero-padded decimal text. -/
def pad4 (n : Nat) : List Char :=
  [digitChar (n / 1000 % 10), digitChar (n / 100 % 10),
    digitChar (n / 10 % 10), digitChar (n % 10)]

/-- Python date.isoformat: YYYY-MM-DD. -/
def isoDate (d : CivilDate) : List Char :=
  pad4 d.year.toNat ++ '-' :: (pad2 d.month ++ '-' :: pad2 d.day)

/-- Python datetime.isoformat of the modelled timestamp (second precision,
with the +HH:MM or -HH:MM suffix when offset-aware). -/
def renderISO (p : PyDateTime) : List Char :=
  pad4 p.year.toNat ++ '-' :: (pad2 p.month ++ '-' :: (pad2 p.day ++
    'T' :: (pad2 p.hour ++ ':' :: (pad2 p.minute ++ ':' :: (pad2 p.second ++
      (match p.offsetMinutes with
       | none => []
       | some off =>
         (if off < 0 then '-' else '+') ::
           (pad2 (off.natAbs / 60) ++ ':' :: pad2 (off.natAbs % 60))))))))

/-- Python str.replace with pattern Z and replacement +00:00, applied to
every occurrence. -/
def replaceZ : List Char → List Char
  | [] => []
  | c :: rest =>
    if c = 'Z' then '+' :: '0' :: '0' :: ':' :: '0' :: '0' :: replaceZ rest
    else c :: replaceZ rest

/-- The datetime.astimezone(timezone.utc) date of a parsed timestamp, as
LocalStorage._date_key_from_timestamp uses it: a naive timestamp is declared
UTC and keeps its date; an aware one is shifted by its offset before the
calendar date is read off. -/
def utcDateOf (p : PyDateTime) : CivilDate :=
  match p.offsetMinutes with
  | none => ⟨p.year, p.month, p.day⟩
  | some off =>
    civilFromDays (Int.fdiv
      (daysFromCivil p.year p.month p.day * 86400 +
        ((p.hour * 3600 + p.minute * 60 + p.second : Nat) : Int) - off * 60) 86400)

/-- LocalStorage._date_key_from_timestamp: a missing or empty timestamp falls
back to the current UTC day (passed in as nowDate, the only clock effect);
otherwise Z is rewritten to +00:00, the text is parsed as isoformat, the
result is converted to UTC and its date is rendered; an unparseable text also
falls back to the current UTC day. -/
def dateKeyFromTimestamp (nowDate : CivilDate) (timestamp : Option (List Char)) :
    List Char :=
  match timestamp with
  | none => isoDate nowDate
  | some ts =>
    if ts = [] then isoDate nowDate
    else
      match parseISO? (replaceZ ts) with
      | none => isoDate nowDate
      | some pdt => isoDate (utcDateOf pdt)

/-- Direct statement of the conversion the spec describes: total minutes of
the civil timestamp, minus the offset, floored into days. -/
def specUtcDate (p : PyDateTime) (off : Int) : CivilDate :=
  civilFromDays (Int.fdiv
    (daysFromCivil p.year p.month p.day * 1440 +
      ((p.hour * 60 + p.minute : Nat) : Int) - off) 1440)

theorem fdiv_sixty (x : Int) (s : Nat) (hs : s < 60) :
    Int.fdiv (x * 60 + (s : Int)) 86400 = Int.fdiv x 1440 := by
  rw [Int.fdiv_eq_ediv _ (by norm_num), Int.fdiv_eq_ediv _ (by norm_num)]
  have hq := Int.ediv_add_emod x 1440
  have hr0 : 0 ≤ x % 1440 := Int.emod_nonneg x (by norm_num)
  have hr1 : x % 1440 < 1440 := Int.emod_lt_of_pos x (by norm_num)
  have hs0 : (0 : Int) ≤ (s : Int) := Int.natCast_nonneg s
  have hs1 : (s : Int) < 60 := by exact_mod_cast hs
  have key : (x * 60 + (s : Int)) / 86400 = x / 1440 ∧
      (x * 60 + (s : Int)) % 86400 = 60 * (x % 1440) + (s : Int) :=
    (Int.ediv_emod_unique (by norm_num)).2 ⟨by linarith, by linarith, by linarith⟩
  exact key.1

theorem parseTZ?_inv {y : Int} {mo dy hh mi ss : Nat} {cs : List Char} {p : PyDateTime}
    (h : parseTZ? y mo dy hh mi ss cs = some p) :
    p.year = y ∧ p.month = mo ∧ p.day = dy ∧ p.hour = hh ∧ p.minute = mi ∧
      p.second = ss := by
  unfold parseTZ? at h
  repeat' split at h
  all_goals first
    | (cases h; exact ⟨rfl, rfl, rfl, rfl, rfl, rfl⟩)
    | simp at h

theorem parseTime?_second {y : Int} {mo dy : Nat} {cs : List Char} {p : PyDateTime}
    (h : parseTime? y mo dy cs = some p) : p.second ≤ 59 := by
  unfold parseTime? at h
  repeat' split at h
  all_goals first
    | simp at h
    | (have h2 := (parseTZ?_inv h).2.2.2.2.2; omega)

theorem parseISO?_second {cs : List Char} {p : PyDateTime}
    (h : parseISO? cs = some p) : p.second ≤ 59 := by
  unfold parseISO? at h
  repeat' split at h
  all_goals first
    | (have h2 := parseTime?_second h; omega)
    | (cases h; show (0 : Nat) ≤ 59; omega)
    | simp at h

/-- C4: a timestamp that parses to an offset-aware datetime with a nonzero
offset is partitioned under the calendar date of the offset-shifted total
time (the UTC day), not under the literal date digits of the text; the
date-only clock fallback is not taken. -/
theorem C4_utc_partition (now : CivilDate) (ts : List Char) (p : PyDateTime)
    (off : Int)
    (hparse : parseISO? (replaceZ ts) = some p)
    (hoff : p.offsetMinutes = some off)
    (_hnz : off ≠ 0) :
    dateKeyFromTimestamp now (some ts) = isoDate (specUtcDate p off) := by
  have hne : ts ≠ [] := by
    intro hts
    subst hts
    have hnone : (none : Option PyDateTime) = some p := hparse
    cases hnone
  have hsec : p.second < 60 := by
    have := parseISO?_second hparse
    omega
  rw [show dateKeyFromTimestamp now (some ts) =
    (if ts = [] then isoDate now
     else
       match parseISO? (replaceZ ts) with
       | none => isoDate now
       | some pdt => isoDate (utcDateOf pdt)) from rfl]
  rw [if_neg hne, hparse]
  show isoDate (utcDateOf p) = isoDate (specUtcDate p off)
  congr 1
  unfold utcDateOf
  rw [hoff]
  show civilFromDays (Int.fdiv
      (daysFromCivil p.year p.month p.day * 86400 +
        ((p.hour * 3600 + p.minute * 60 + p.second : Nat) : Int) - off * 60) 86400) =
    specUtcDate p off
  unfold specUtcDate
  congr 1
  have harr : daysFromCivil p.year p.month p.day * 86400 +
      ((p.hour * 3600 + p.minute * 60 + p.second : Nat) : Int) - off * 60 =
      (daysFromCivil p.year p.month p.day * 1440 +
        ((p.hour * 60 + p.minute : Nat) : Int) - off) * 60 + (p.second : Int) := by
    push_cast
    ring
  rw [harr, fdiv_sixty _ _ hsec]

/-- C4 witness: the reading of the test suite, timestamped 2024-01-15T23:59:00
at UTC-5, lands in the partition of 2024-01-16. -/
theorem C4_utc_partition_witness :
    dateKeyFromTimestamp ⟨2024, 3, 1⟩ (some "2024-01-15T23:59:00-05:00".data) =
      isoDate (specUtcDate ⟨2024, 1, 15, 23, 59, 0, some (-300)⟩ (-300)) ∧
    isoDate (specUtcDate ⟨2024, 1, 15, 23, 59, 0, some (-300)⟩ (-300)) =
      "2024-01-16".data :=
  ⟨C4_utc_partition ⟨2024, 3, 1⟩ "2024-01-15T23:59:00-05:00".data
     ⟨2024, 1, 15, 23, 59, 0, some (-300)⟩ (-300) (by decide) (by decide) (by decide),
   by decide⟩

/-- C10: a missing, empty or unparseable timestamp makes the partition key
fall back to the current UTC day rather than fail. -/
theorem C10_fallback (now : CivilDate) (ts : List Char)
    (hbad : parseISO? (replaceZ ts) = none) :
    dateKeyFromTimestamp now none = isoDate now ∧
    dateKeyFromTimestamp now (some []) = isoDate now ∧
    dateKeyFromTimestamp now (some ts) = isoDate now := by
  refine ⟨rfl, rfl, ?_⟩
  rw [show dateKeyFromTimestamp now (some ts) =
    (if ts = [] then isoDate now
     else
       match parseISO? (replaceZ ts) with
       | none => isoDate now
       | some pdt => isoDate (utcDateOf pdt)) from rfl]
  by_cases hne : ts = []
  · rw [if_pos hne]
  · rw [if_neg hne, hbad]

/-- C10 witness: a non-ISO text falls back to the supplied current day. -/
theorem C10_fallback_witness :
    dateKeyFromTimestamp ⟨2024, 3, 1⟩ none = isoDate ⟨2024, 3, 1⟩ ∧
    dateKeyFromTimestamp ⟨2024, 3, 1⟩ (some []) = isoDate ⟨2024, 3, 1⟩ ∧
    dateKeyFromTimestamp ⟨2024, 3, 1⟩ (some "garbage".data) = isoDate ⟨2024, 3, 1⟩ :=
  C10_fallback ⟨2024, 3, 1⟩ "garbage".data (by decide)

/-- The reading dict flowing from SensorStation.take_reading into the radio
and storage layers: the stored fields, with the optional timestamp read back
through dict.get. -/
structure RData where
  timestamp : Option (List Char)
  station_id : List Char
  raw_distance_mm : Int
  snow_depth_mm : Int
  sensor_temp_c : Option ℚ
  battery_voltage : Option ℚ
  signal_quality : Int
  transmission_status : String
deriving DecidableEq, Repr

/-- LocalStorage._file_for_root: the per-day partition filename of a station. -/
def fileName (stationId dateKey : List Char) : List Char :=
  stationId ++ '_' :: (dateKey ++ ".csv".data)

/-- A storage root modelled as the list of its files in creation order, each
a filename with its appended rows (the header row is implicit in creation). -/
abbrev Root : Type := List (List Char × List RData)

/-- LocalStorage._save_to_root: append the row to the partition of the given
date key, creating the file at the end of the directory when absent. -/
def saveToRoot (stationId dateKey : List Char) (data : RData) (root : Root) : Root :=
  let fn := fileName stationId dateKey
  if root.any (fun f => f.1 = fn) then
    root.map (fun f => if f.1 = fn then (f.1, f.2 ++ [data]) else f)
  else root ++ [(fn, [data])]

/-- LocalStorage._cleanup_old_files: sort the partition filenames (Python
sorted() compares strings lexicographically by code point, which is the lex
order on the modelled char lists; any correct sort yields the same unique
sorted permutation, so insertion sort models it), then pop and delete the
oldest while more than max_files remain (failures inside the source are
swallowed by its own try block, so cleanup is modelled total). -/
def cleanupRoot (maxFiles : Nat) (root : Root) : Root :=
  let sortedNames := List.insertionSort (· ≤ ·) (root.map Prod.fst)
  let toDelete := sortedNames.take (sortedNames.length - maxFiles)
  root.filter (fun f => f.1 ∉ toDelete)

/-- The constructor configuration of LocalStorage (the backup path is kept
abstract as its presence flag; the model never compares the two roots). -/
structure StorageCfg where
  stationId : List Char
  maxFiles : Nat
  backupConfigured : Bool
  backupSyncMode : String
  backupRequired : Bool

/-- The mutable state of LocalStorage: both roots and the backup health
fields. -/
structure StorageState where
  primary : Root
  backup : Root
  backupReady : Bool
  lastBackupError : Option String
deriving DecidableEq

/-- LocalStorage.initialize, with the outcome of each mkdir call supplied by
the environment: primary failure returns False; with no backup configured the
backup is left unready; a backup mkdir failure records the error and fails
the whole initialization only when backup is required. -/
def initializeLS (cfg : StorageCfg) (mkdirPrimaryOk : Bool)
    (mkdirBackupErr : Option String) (st : StorageState) : Bool × StorageState :=
  if ¬ mkdirPrimaryOk then (false, st)
  else if ¬ cfg.backupConfigured then (true, { st with backupReady := false })
  else
    match mkdirBackupErr with
    | none => (true, { st with backupReady := true, lastBackupError := none })
    | some e =>
      let st2 := { st with backupReady := false, lastBackupError := some e }
      if cfg.backupRequired then (false, st2) else (true, st2)

/-- LocalStorage.save_primary: on success the reading is appended to its day
partition of the primary root and rotation runs; an exception anywhere in the
try block (supplied by the environment, e.g. a disk failure before the write
lands) is caught and reported as False. -/
def savePrimary (cfg : StorageCfg) (primaryOk : Bool) (now : CivilDate)
    (data : RData) (st : StorageState) : Bool × StorageState :=
  if primaryOk then
    let dk := dateKeyFromTimestamp now data.timestamp
    (true, { st with
      primary := cleanupRoot cfg.maxFiles (saveToRoot cfg.stationId dk data st.primary) })
  else (false, st)

/-- LocalStorage.mirror_to_backup: nothing happens without a configured
backup path; a successful mirrored write also rotates the backup root and
marks the backup healthy; an exception (supplied by the environment) only
records the message and unreadiness, and returns False. -/
def mirrorToBackup (cfg : StorageCfg) (backupExc : Option String) (now : CivilDate)
    (data : RData) (st : StorageState) : Bool × StorageState :=
  if ¬ cfg.backupConfigured then (false, st)
  else
    match backupExc with
    | none =>
      let dk := dateKeyFromTimestamp now data.timestamp
      (true, { st with
        backup := cleanupRoot cfg.maxFiles (saveToRoot cfg.stationId dk data st.backup),
        backupReady := true,
        lastBackupError := none })
    | some e => (false, { st with backupReady := false, lastBackupError := some e })

/-- LocalStorage.save_reading: the primary write decides the return value; in
immediate sync mode a mirror write is then attempted whose own outcome is
discarded. -/
def saveReading (cfg : StorageCfg) (primaryOk : Bool) (backupExc : Option String)
    (now : CivilDate) (data : RData) (st : StorageState) : Bool × StorageState :=
  let r1 := savePrimary cfg primaryOk now data st
  if ¬ r1.1 then (false, r1.2)
  else if cfg.backupSyncMode = "immediate" then
    (true, (mirrorToBackup cfg backupExc now data r1.2).2)
  else (true, r1.2)

/-- The queryable backup health of LocalStorage.get_backup_health (the path
string itself is abstracted into the configured flag). -/
structure BackupHealth where
  configured : Bool
  sync_mode : String
  required : Bool
  ready : Bool
  last_error : Option String
deriving DecidableEq

/-- LocalStorage.get_backup_health. -/
def getBackupHealth (cfg : StorageCfg) (st : StorageState) : BackupHealth :=
  ⟨cfg.backupConfigured, cfg.backupSyncMode, cfg.backupRequired,
    st.backupReady, st.lastBackupError⟩

/-- SensorStation.transmit_and_store: attempt the radio send when the radio
initialised (its success supplied by the environment), stamp the resulting
transmission status and signal quality into the reading, and always hand the
reading to save_reading; a primary failure is only logged.  Returns the
transmit outcome and the new storage state. -/
def transmitAndStore (cfg : StorageCfg) (loraReady txOk : Bool) (sigQ : Int)
    (primaryOk : Bool) (backupExc : Option String) (now : CivilDate)
    (reading : RData) (st : StorageState) : Bool × StorageState :=
  let txSuccess := loraReady && txOk
  let reading2 := { reading with
    transmission_status := if txSuccess then "success" else "local_only",
    signal_quality := if loraReady then sigQ else 0 }
  (txSuccess, (saveReading cfg primaryOk backupExc now reading2 st).2)

/-- Total number of ledger rows across the partition files of a root. -/
def totalRows (root : Root) : Nat := (root.map (fun f => f.2.length)).sum

theorem map_untouched_of_not_mem {fn : List Char} (fs : List (List Char × List RData))
    (h : fn ∉ fs.map Prod.fst) :
    fs.map (fun f => if f.1 = fn then (f.1, f.2 ++ [d]) else f) = fs := by
  induction fs with
  | nil => rfl
  | cons f fs ih =>
    simp only [List.map_cons, List.mem_cons, not_or] at h
    simp only [List.map_cons]
    rw [if_neg fun hf => h.1 hf.symm, ih h.2]

theorem totalRows_saveToRoot (sid dk : List Char) (data : RData) (root : Root)
    (hnd : (root.map Prod.fst).Nodup) :
    totalRows (saveToRoot sid dk data root) = totalRows root + 1 := by
  unfold saveToRoot
  by_cases hex : root.any (fun f => f.1 = fileName sid dk) = true
  · rw [if_pos hex]
    induction root with
    | nil => simp at hex
    | cons f fs ih =>
      simp only [List.map_cons, List.nodup_cons] at hnd
      by_cases hf : f.1 = fileName sid dk
      · simp only [List.map_cons, if_pos hf]
        rw [map_untouched_of_not_mem fs (hf ▸ hnd.1)]
        unfold totalRows
        simp only [List.map_cons, List.sum_cons, List.length_append,
          List.length_singleton]
        omega
      · simp only [List.any_cons, Bool.or_eq_true, decide_eq_true_eq] at hex
        rcases hex with hex | hex
        · exact absurd hex hf
        · simp only [List.map_cons, if_neg hf]
          have ih2 := ih hnd.2 hex
          unfold totalRows at ih2 ⊢
          simp only [List.map_cons, List.sum_cons] at ih2 ⊢
          omega
  · rw [if_neg hex]
    unfold totalRows
    simp

/-- C5: save_reading computes a boolean and never raises; the boolean is
exactly the primary write outcome; varying the backup outcome never changes
the returned boolean; and a backup exception during the mirror attempt only
records the message and flips readiness, leaving the primary root untouched. -/
theorem C5_save_reading (cfg : StorageCfg) (primaryOk : Bool) (b1 b2 : Option String)
    (now : CivilDate) (data : RData) (st : StorageState) :
    (saveReading cfg primaryOk b1 now data st).1 = primaryOk ∧
    (saveReading cfg primaryOk b1 now data st).1 =
      (saveReading cfg primaryOk b2 now data st).1 ∧
    (∀ e : String,
      (mirrorToBackup cfg (some e) now data st).2.primary = st.primary ∧
      (cfg.backupConfigured = true →
        (mirrorToBackup cfg (some e) now data st).2.backupReady = false ∧
        (mirrorToBackup cfg (some e) now data st).2.lastBackupError = some e)) := by
  refine ⟨?_, ?_, ?_⟩
  · cases primaryOk <;> by_cases hm : cfg.backupSyncMode = "immediate" <;>
      simp [saveReading, savePrimary, hm]
  · cases primaryOk <;> by_cases hm : cfg.backupSyncMode = "immediate" <;>
      simp [saveReading, savePrimary, hm]
  · intro e
    constructor
    · by_cases hc : cfg.backupConfigured = true <;> simp [mirrorToBackup, hc]
    · intro hc
      simp [mirrorToBackup, hc]

/-- C5 witness: evaluated over the empty state with a failing mirror. -/
theorem C5_save_reading_witness :
    (saveReading ⟨"S".data, 30, true, "immediate", false⟩ true (some "io error")
      ⟨2024, 3, 1⟩
      ⟨some "2024-03-01T00:00:00Z".data, "S".data, 1800, 200, none, none, 0,
        "pending"⟩ ⟨[], [], true, none⟩).1 = true ∧
    (saveReading ⟨"S".data, 30, true, "immediate", false⟩ true (some "io error")
      ⟨2024, 3, 1⟩
      ⟨some "2024-03-01T00:00:00Z".data, "S".data, 1800, 200, none, none, 0,
        "pending"⟩ ⟨[], [], true, none⟩).1 =
    (saveReading ⟨"S".data, 30, true, "immediate", false⟩ true none
      ⟨2024, 3, 1⟩
      ⟨some "2024-03-01T00:00:00Z".data, "S".data, 1800, 200, none, none, 0,
        "pending"⟩ ⟨[], [], true, none⟩).1 ∧
    (∀ e : String,
      (mirrorToBackup ⟨"S".data, 30, true, "immediate", false⟩ (some e)
        ⟨2024, 3, 1⟩
        ⟨some "2024-03-01T00:00:00Z".data, "S".data, 1800, 200, none, none, 0,
          "pending"⟩ ⟨[], [], true, none⟩).2.primary = [] ∧
      (true = true →
        (mirrorToBackup ⟨"S".data, 30, true, "immediate", false⟩ (some e)
          ⟨2024, 3, 1⟩
          ⟨some "2024-03-01T00:00:00Z".data, "S".data, 1800, 200, none, none, 0,
            "pending"⟩ ⟨[], [], true, none⟩).2.backupReady = false ∧
        (mirrorToBackup ⟨"S".data, 30, true, "immediate", false⟩ (some e)
          ⟨2024, 3, 1⟩
          ⟨some "2024-03-01T00:00:00Z".data, "S".data, 1800, 200, none, none, 0,
            "pending"⟩ ⟨[], [], true, none⟩).2.lastBackupError = some e)) :=
  C5_save_reading ⟨"S".data, 30, true, "immediate", false⟩ true (some "io error") none
    ⟨2024, 3, 1⟩
    ⟨some "2024-03-01T00:00:00Z".data, "S".data, 1800, 200, none, none, 0, "pending"⟩
    ⟨[], [], true, none⟩

/-- C6: with a configured backup root whose creation fails, initialization
fails exactly when backup is required; when it is optional, initialization
succeeds, the reported backup health is unready with the recorded error, and
the primary save path still returns the primary write outcome. -/
theorem C6_backup_init (cfg : StorageCfg) (e : String) (st : StorageState)
    (hconf : cfg.backupConfigured = true) :
    (cfg.backupRequired = true → (initializeLS cfg true (some e) st).1 = false) ∧
    (cfg.backupRequired = false →
      (initializeLS cfg true (some e) st).1 = true ∧
      (getBackupHealth cfg (initializeLS cfg true (some e) st).2).ready = false ∧
      (getBackupHealth cfg (initializeLS cfg true (some e) st).2).last_error = some e ∧
      (∀ (primaryOk : Bool) (now : CivilDate) (data : RData),
        (savePrimary cfg primaryOk now data (initializeLS cfg true (some e) st).2).1 =
          primaryOk)) := by
  constructor
  · intro hreq
    simp [initializeLS, hconf, hreq]
  · intro hreq
    refine ⟨?_, ?_, ?_, ?_⟩
    · simp [initializeLS, hconf, hreq]
    · simp [initializeLS, getBackupHealth, hconf, hreq]
    · simp [initializeLS, getBackupHealth, hconf, hreq]
    · intro primaryOk now data
      cases primaryOk <;> simp [savePrimary]

/-- C6 witness: a required backup fails initialization and an optional one
reports unhealthy while primary saves proceed. -/
theorem C6_backup_init_witness :
    (true = true →
      (initializeLS ⟨"S".data, 30, true, "immediate", true⟩ true (some "mkdir failed")
        ⟨[], [], false, none⟩).1 = false) ∧
    (true = false →
      (initializeLS ⟨"S".data, 30, true, "immediate", true⟩ true (some "mkdir failed")
        ⟨[], [], false, none⟩).1 = true ∧
      (getBackupHealth ⟨"S".data, 30, true, "immediate", true⟩
        (initializeLS ⟨"S".data, 30, true, "immediate", true⟩ true (some "mkdir failed")
          ⟨[], [], false, none⟩).2).ready = false ∧
      (getBackupHealth ⟨"S".data, 30, true, "immediate", true⟩
        (initializeLS ⟨"S".data, 30, true, "immediate", true⟩ true (some "mkdir failed")
          ⟨[], [], false, none⟩).2).last_error = some "mkdir failed" ∧
      (∀ (primaryOk : Bool) (now : CivilDate) (data : RData),
        (savePrimary ⟨"S".data, 30, true, "immediate", true⟩ primaryOk now data
          (initializeLS ⟨"S".data, 30, true, "immediate", true⟩ true (some "mkdir failed")
            ⟨[], [], false, none⟩).2).1 = primaryOk)) :=
  C6_backup_init ⟨"S".data, 30, true, "immediate", true⟩ "mkdir failed"
    ⟨[], [], false, none⟩ (by decide)

/-- C8: a delivery attempt with a landing primary write appends the reading
to the durable ledger exactly once whatever the radio outcome, stamped
success exactly when the transport is ready and the send succeeds and
local_only otherwise; the backup is written exactly in immediate sync mode
(and is untouched in any other mode), independent of the send outcome. -/
theorem C8_delivery (cfg : StorageCfg) (loraReady txOk : Bool) (sigQ : Int)
    (backupExc : Option String) (now : CivilDate) (reading : RData)
    (st : StorageState) (hnd : (st.primary.map Prod.fst).Nodup) :
    (transmitAndStore cfg loraReady txOk sigQ true backupExc now reading st).2.primary =
      cleanupRoot cfg.maxFiles (saveToRoot cfg.stationId
        (dateKeyFromTimestamp now reading.timestamp)
        { reading with
          transmission_status := if loraReady && txOk then "success" else "local_only",
          signal_quality := if loraReady then sigQ else 0 }
        st.primary) ∧
    totalRows (saveToRoot cfg.stationId (dateKeyFromTimestamp now reading.timestamp)
        { reading with
          transmission_status := if loraReady && txOk then "success" else "local_only",
          signal_quality := if loraReady then sigQ else 0 }
        st.primary) = totalRows st.primary + 1 ∧
    (cfg.backupSyncMode ≠ "immediate" →
      (transmitAndStore cfg loraReady txOk sigQ true backupExc now reading st).2.backup =
        st.backup) ∧
    (cfg.backupSyncMode = "immediate" → cfg.backupConfigured = true →
      backupExc = none →
      (transmitAndStore cfg loraReady txOk sigQ true backupExc now reading st).2.backup =
        cleanupRoot cfg.maxFiles (saveToRoot cfg.stationId
          (dateKeyFromTimestamp now reading.timestamp)
          { reading with
            transmission_status := if loraReady && txOk then "success" else "local_only",
            signal_quality := if loraReady then sigQ else 0 }
          st.backup)) ∧
    (∀ e : String, cfg.backupSyncMode = "immediate" → backupExc = some e →
      (transmitAndStore cfg loraReady txOk sigQ true backupExc now reading st).2.backup =
        st.backup) := by
  refine ⟨?_, ?_, ?_, ?_, ?_⟩
  · by_cases hm : cfg.backupSyncMode = "immediate" <;>
      by_cases hc : cfg.backupConfigured = true <;>
      cases backupExc <;>
      simp [transmitAndStore, saveReading, savePrimary, mirrorToBackup, hm, hc]
  · exact totalRows_saveToRoot _ _ _ _ hnd
  · intro hm
    simp [transmitAndStore, saveReading, savePrimary, hm]
  · intro hm hc hb
    subst hb
    simp [transmitAndStore, saveReading, savePrimary, mirrorToBackup, hm, hc]
  · intro e hm hb
    subst hb
    by_cases hc : cfg.backupConfigured = true <;>
      simp [transmitAndStore, saveReading, savePrimary, mirrorToBackup, hm, hc]

/-- C8 witness: a delivery over the empty ledger with the radio down, in
immediate sync mode with a healthy backup. -/
theorem C8_delivery_witness :
    (transmitAndStore ⟨"S".data, 30, true, "immediate", false⟩ false false 0 true none
      ⟨2024, 3, 1⟩
      ⟨some "2024-03-01T00:00:00Z".data, "S".data, 1800, 200, none, none, 0,
        "pending"⟩ ⟨[], [], true, none⟩).2.primary =
      cleanupRoot 30 (saveToRoot "S".data
        (dateKeyFromTimestamp ⟨2024, 3, 1⟩ (some "2024-03-01T00:00:00Z".data))
        { timestamp := some "2024-03-01T00:00:00Z".data, station_id := "S".data,
          raw_distance_mm := 1800, snow_depth_mm := 200, sensor_temp_c := none,
          battery_voltage := none,
          signal_quality := if false then 0 else 0,
          transmission_status := if false && false then "success" else "local_only" }
        []) ∧
    totalRows (saveToRoot "S".data
        (dateKeyFromTimestamp ⟨2024, 3, 1⟩ (some "2024-03-01T00:00:00Z".data))
        { timestamp := some "2024-03-01T00:00:00Z".data, station_id := "S".data,
          raw_distance_mm := 1800, snow_depth_mm := 200, sensor_temp_c := none,
          battery_voltage := none,
          signal_quality := if false then 0 else 0,
          transmission_status := if false && false then "success" else "local_only" }
        []) = totalRows [] + 1 ∧
    ("immediate" ≠ "immediate" →
      (transmitAndStore ⟨"S".data, 30, true, "immediate", false⟩ false false 0 true none
        ⟨2024, 3, 1⟩
        ⟨some "2024-03-01T00:00:00Z".data, "S".data, 1800, 200, none, none, 0,
          "pending"⟩ ⟨[], [], true, none⟩).2.backup = []) ∧
    ("immediate" = "immediate" → true = true → (none : Option String) = none →
      (transmitAndStore ⟨"S".data, 30, true, "immediate", false⟩ false false 0 true none
        ⟨2024, 3, 1⟩
        ⟨some "2024-03-01T00:00:00Z".data, "S".data, 1800, 200, none, none, 0,
          "pending"⟩ ⟨[], [], true, none⟩).2.backup =
        cleanupRoot 30 (saveToRoot "S".data
          (dateKeyFromTimestamp ⟨2024, 3, 1⟩ (some "2024-03-01T00:00:00Z".data))
          { timestamp := some "2024-03-01T00:00:00Z".data, station_id := "S".data,
            raw_distance_mm := 1800, snow_depth_mm := 200, sensor_temp_c := none,
            battery_voltage := none,
            signal_quality := if false then 0 else 0,
            transmission_status := if false && false then "success" else "local_only" }
          [])) ∧
    (∀ e : String, "immediate" = "immediate" → (none : Option String) = some e →
      (transmitAndStore ⟨"S".data, 30, true, "immediate", false⟩ false false 0 true none
        ⟨2024, 3, 1⟩
        ⟨some "2024-03-01T00:00:00Z".data, "S".data, 1800, 200, none, none, 0,
          "pending"⟩ ⟨[], [], true, none⟩).2.backup = []) :=
  C8_delivery ⟨"S".data, 30, true, "immediate", false⟩ false false 0 none
    ⟨2024, 3, 1⟩
    ⟨some "2024-03-01T00:00:00Z".data, "S".data, 1800, 200, none, none, 0, "pending"⟩
    ⟨[], [], true, none⟩ (by decide)

/-- The DataAggregator runtime counters and archive, with the archive as the
list of appended rows (received_at stamp with the decoded packet). -/
structure AggState where
  totalReceived : Nat
  totalSaved : Nat
  lastPacketAt : Option (List Char)
  stationCounts : List (List Char × Nat)
  archive : List (List Char × ParsedMsg)
deriving DecidableEq

/-- The station_counts dict bump of DataAggregator._process_reading. -/
def bumpCount (sid : List Char) (counts : List (List Char × Nat)) :
    List (List Char × Nat) :=
  if counts.any (fun c => c.1 = sid) then
    counts.map (fun c => if c.1 = sid then (c.1, c.2 + 1) else c)
  else counts ++ [(sid, 1)]

/-- One receive-loop event: a receive timeout (receive returned None, which
also stands for a receive-layer error caught inside receive), or a decoded
packet together with whether the archive append raises. -/
inductive RxEvent where
  | timeout
  | packet (d : ParsedMsg) (receivedAt : List Char) (saveFails : Bool)
deriving DecidableEq

/-- DataAggregator._process_reading: the receipt counters and station count
are updated first, then _save_reading appends to the archive and bumps
total_saved; an exception in the append (environment supplied) leaves the
archive and total_saved untouched and propagates (second component false). -/
def processReading (d : ParsedMsg) (receivedAt : List Char) (saveFails : Bool)
    (st : AggState) : AggState × Bool :=
  let st1 := { st with
    totalReceived := st.totalReceived + 1,
    lastPacketAt := some receivedAt,
    stationCounts := bumpCount d.station_id st.stationCounts }
  if saveFails then (st1, false)
  else ({ st1 with
    archive := st1.archive ++ [(receivedAt, d)],
    totalSaved := st1.totalSaved + 1 }, true)

/-- DataAggregator.run over a finite trace of receive outcomes: a timeout
continues the loop, a processed packet continues it, and an exception from
_process_reading propagates out of the while (only KeyboardInterrupt is
caught there), ending the loop; the flag records that termination. -/
def runLoop : List RxEvent → AggState → AggState × Bool
  | [], st => (st, false)
  | .timeout :: rest, st => runLoop rest st
  | .packet d ra saveFails :: rest, st =>
    let r := processReading d ra saveFails st
    if r.2 then runLoop rest r.1 else (r.1, true)

/-- C9 counterexample: over the empty aggregator state, a trace with an
archive append failure on the first packet followed by a second packet ends
the loop at once: the second packet is never received (total_received stays
1, total_saved 0), refuting that the loop proceeds to the next packet. -/
theorem C9_cex :
    (runLoop
      [.packet ⟨"S1".data, "2024-03-01T00:00:00Z".data, 1800, 200, none, none⟩
        "2024-03-01T00:00:05Z".data true,
       .packet ⟨"S2".data, "2024-03-01T00:01:00Z".data, 1700, 300, none, none⟩
        "2024-03-01T00:01:05Z".data false]
      ⟨0, 0, none, [], []⟩).2 = true ∧
    (runLoop
      [.packet ⟨"S1".data, "2024-03-01T00:00:00Z".data, 1800, 200, none, none⟩
        "2024-03-01T00:00:05Z".data true,
       .packet ⟨"S2".data, "2024-03-01T00:01:00Z".data, 1700, 300, none, none⟩
        "2024-03-01T00:01:05Z".data false]
      ⟨0, 0, none, [], []⟩).1.totalReceived = 1 ∧
    (runLoop
      [.packet ⟨"S1".data, "2024-03-01T00:00:00Z".data, 1800, 200, none, none⟩
        "2024-03-01T00:00:05Z".data true,
       .packet ⟨"S2".data, "2024-03-01T00:01:00Z".data, 1700, 300, none, none⟩
        "2024-03-01T00:01:05Z".data false]
      ⟨0, 0, none, [], []⟩).1.totalSaved = 0 := by
  decide

/-- C9 (amended): a receive timeout or receive-layer error never ends the
loop, and a successful append continues it with the packet archived; but an
archive append failure propagates out of the receive loop, which terminates
with only the receipt counters updated — later packets are not received. -/
theorem C9_storage_failure (d : ParsedMsg) (ra : List Char) (rest : List RxEvent)
    (st : AggState) :
    runLoop (.timeout :: rest) st = runLoop rest st ∧
    (runLoop (.packet d ra true :: rest) st).2 = true ∧
    (runLoop (.packet d ra true :: rest) st).1 =
      { st with
        totalReceived := st.totalReceived + 1,
        lastPacketAt := some ra,
        stationCounts := bumpCount d.station_id st.stationCounts } ∧
    runLoop (.packet d ra false :: rest) st =
      runLoop rest
        { st with
          totalReceived := st.totalReceived + 1,
          lastPacketAt := some ra,
          stationCounts := bumpCount d.station_id st.stationCounts,
          archive := st.archive ++ [(ra, d)],
          totalSaved := st.totalSaved + 1 } :=
  ⟨rfl, rfl, rfl, rfl⟩

/-- Insert a partition name into a newest-first (descending) sorted list. -/
def insertD (x : List Char) : List (List Char) → List (List Char)
  | [] => [x]
  | y :: ys => if y ≤ x then x :: y :: ys else y :: insertD x ys

/-- Sort partition names newest-first. -/
def sortD (l : List (List Char)) : List (List Char) := l.foldr insertD []

/-- Per-station file rotation step of save_primary with a landing write: the
append into the day partition followed by the rotation of the root. -/
def stepSave (m : Nat) (sid : List Char) (root : Root) (s0 : List Char × RData) :
    Root :=
  cleanupRoot m (saveToRoot sid s0.1 s0.2 root)

/-- The distinct partition names a save sequence has produced, newest
(lexicographically largest, hence most recent date) first. -/
def accNames (sid : List Char) (saves : List (List Char × RData)) :
    List (List Char) :=
  saves.foldl (fun acc s0 =>
    if fileName sid s0.1 ∈ acc then acc else insertD (fileName sid s0.1) acc) []

theorem insertD_perm (x : List Char) :
    ∀ l : List (List Char), List.Perm (insertD x l) (x :: l) := by
  intro l
  induction l with
  | nil => exact List.Perm.refl _
  | cons y ys ih =>
    show List.Perm (if y ≤ x then x :: y :: ys else y :: insertD x ys) (x :: y :: ys)
    by_cases h : y ≤ x
    · rw [if_pos h]
    · rw [if_neg h]
      exact (ih.cons y).trans (List.Perm.swap x y ys)

theorem mem_insertD {z x : List Char} {l : List (List Char)} :
    z ∈ insertD x l ↔ z = x ∨ z ∈ l := by
  rw [(insertD_perm x l).mem_iff, List.mem_cons]

theorem insertD_sorted {x : List Char} :
    ∀ {l : List (List Char)}, l.Pairwise (fun a b => b ≤ a) →
      (insertD x l).Pairwise (fun a b => b ≤ a) := by
  intro l
  induction l with
  | nil => intro _; exact List.pairwise_singleton _ _
  | cons y ys ih =>
    intro h
    show ((if y ≤ x then x :: y :: ys else y :: insertD x ys)).Pairwise
      (fun a b => b ≤ a)
    by_cases hyx : y ≤ x
    · rw [if_pos hyx]
      refine List.Pairwise.cons ?_ h
      intro z hz
      rcases List.mem_cons.1 hz with rfl | hz2
      · exact hyx
      · exact le_trans (List.rel_of_pairwise_cons h hz2) hyx
    · rw [if_neg hyx]
      refine List.Pairwise.cons ?_ (ih (List.Pairwise.of_cons h))
      intro z hz
      rcases mem_insertD.1 hz with rfl | hz2
      · exact le_of_not_le hyx
      · exact List.rel_of_pairwise_cons h hz2

theorem insertD_nodup {x : List Char} {l : List (List Char)} (hl : l.Nodup)
    (hx : x ∉ l) : (insertD x l).Nodup :=
  ((insertD_perm x l).symm.nodup (List.nodup_cons.2 ⟨hx, hl⟩))

theorem sortD_perm (l : List (List Char)) : List.Perm (sortD l) l := by
  induction l with
  | nil => exact List.Perm.refl _
  | cons a l ih =>
    show List.Perm (insertD a (sortD l)) (a :: l)
    exact (insertD_perm a (sortD l)).trans (ih.cons a)

theorem sortD_sorted (l : List (List Char)) :
    (sortD l).Pairwise (fun a b => b ≤ a) := by
  induction l with
  | nil => exact List.Pairwise.nil
  | cons a l ih => exact insertD_sorted ih

theorem sortedD_unique {d1 d2 : List (List Char)}
    (h1 : d1.Pairwise (fun a b => b ≤ a)) (h2 : d2.Pairwise (fun a b => b ≤ a))
    (hp : List.Perm d1 d2) : d1 = d2 :=
  List.Perm.eq_of_sorted (fun _ _ _ _ hab hba => le_antisymm hba hab) h1 h2 hp

theorem take_cons_take (k : Nat) (y : List Char) (ys : List (List Char)) :
    (y :: ys.take k).take k = (y :: ys).take k := by
  cases k with
  | zero => rfl
  | succ j =>
    simp only [List.take_succ_cons, List.take_take]
    rw [min_eq_left (Nat.le_succ j)]

theorem absorb (x : List Char) :
    ∀ (d : List (List Char)) (m : Nat),
      (insertD x (d.take m)).take m = (insertD x d).take m := by
  intro d
  induction d with
  | nil => intro m; simp
  | cons y ys ih =>
    intro m
    cases m with
    | zero => rfl
    | succ k =>
      simp only [List.take_succ_cons]
      show (insertD x (y :: ys.take k)).take (k + 1) =
        (insertD x (y :: ys)).take (k + 1)
      by_cases hyx : y ≤ x
      · show ((if y ≤ x then x :: y :: ys.take k else
            y :: insertD x (ys.take k))).take (k + 1) =
          ((if y ≤ x then x :: y :: ys else y :: insertD x ys)).take (k + 1)
        rw [if_pos hyx, if_pos hyx]
        simp only [List.take_succ_cons]
        rw [take_cons_take]
      · show ((if y ≤ x then x :: y :: ys.take k else
            y :: insertD x (ys.take k))).take (k + 1) =
          ((if y ≤ x then x :: y :: ys else y :: insertD x ys)).take (k + 1)
        rw [if_neg hyx, if_neg hyx]
        simp only [List.take_succ_cons]
        rw [ih k]

theorem insertD_append_gt {x : List Char} :
    ∀ {t : List (List Char)}, (∀ y ∈ t, ¬ y ≤ x) →
      ∀ r, insertD x (t ++ r) = t ++ insertD x r := by
  intro t
  induction t with
  | nil => intro _ r; rfl
  | cons y ys ih =>
    intro h r
    show (if y ≤ x then x :: y :: (ys ++ r) else y :: insertD x (ys ++ r)) =
      y :: (ys ++ insertD x r)
    rw [if_neg (h y (List.mem_cons_self y ys))]
    rw [ih (fun z hz => h z (List.mem_cons_of_mem y hz)) r]

theorem filter_not_mem_take {s : List (List Char)} (h : s.Nodup) :
    ∀ k, s.filter (fun n => n ∉ s.take k) = s.drop k := by
  induction s with
  | nil => intro k; simp
  | cons a s ih =>
    intro k
    rcases List.nodup_cons.1 h with ⟨ha, hs⟩
    cases k with
    | zero =>
      simp
    | succ j =>
      simp only [List.take_succ_cons, List.drop_succ_cons]
      rw [List.filter_cons]
      have hcond : (decide (a ∉ a :: List.take j s)) = false := by
        simp
      rw [hcond]
      simp only [Bool.false_eq_true, if_false]
      have hcongr : s.filter (fun n => n ∉ a :: s.take j) =
          s.filter (fun n => n ∉ s.take j) := by
        apply List.filter_congr
        intro y hy
        have hya : y ≠ a := fun heq => ha (heq ▸ hy)
        simp [hya]
      rw [hcongr, ih hs j]

theorem sortD_eq_reverse_sortA (ns : List (List Char)) :
    sortD ns = (List.insertionSort (· ≤ ·) ns).reverse := by
  apply sortedD_unique (sortD_sorted ns)
  · rw [List.pairwise_reverse]
    exact List.sorted_insertionSort (· ≤ ·) ns
  · exact (sortD_perm ns).trans
      ((List.perm_insertionSort (· ≤ ·) ns).symm.trans (List.reverse_perm _).symm)

theorem filter_fst_map (T : List (List Char)) (root : Root) :
    (root.filter (fun f => f.1 ∉ T)).map Prod.fst =
      (root.map Prod.fst).filter (fun n => n ∉ T) := by
  induction root with
  | nil => rfl
  | cons f fs ih =>
    by_cases hf : f.1 ∈ T
    · simp only [List.filter_cons, List.map_cons, hf, not_true, decide_False,
        Bool.false_eq_true, if_false, ih]
    · simp only [List.filter_cons, List.map_cons, hf, not_false_iff, decide_True,
        if_true, List.map_cons, ih]

theorem cleanup_names (m : Nat) (root : Root) :
    (cleanupRoot m root).map Prod.fst =
      (root.map Prod.fst).filter (fun n =>
        n ∉ (List.insertionSort (· ≤ ·) (root.map Prod.fst)).take
          ((List.insertionSort (· ≤ ·) (root.map Prod.fst)).length - m)) := by
  unfold cleanupRoot
  exact filter_fst_map _ root

theorem sortD_cleanup (m : Nat) (root : Root) (hnd : (root.map Prod.fst).Nodup) :
    sortD ((cleanupRoot m root).map Prod.fst) =
      (sortD (root.map Prod.fst)).take m := by
  have hsnd : (List.insertionSort (· ≤ ·) (root.map Prod.fst)).Nodup :=
    ((List.perm_insertionSort (· ≤ ·) (root.map Prod.fst)).symm).nodup hnd
  have h1 := cleanup_names m root
  have h3 := filter_not_mem_take hsnd
    ((List.insertionSort (· ≤ ·) (root.map Prod.fst)).length - m)
  have hperm : List.Perm ((cleanupRoot m root).map Prod.fst)
      ((List.insertionSort (· ≤ ·) (root.map Prod.fst)).drop
        ((List.insertionSort (· ≤ ·) (root.map Prod.fst)).length - m)) := by
    rw [h1, ← h3]
    exact List.Perm.filter _ (List.perm_insertionSort (· ≤ ·) (root.map Prod.fst)).symm
  have h4 : sortD ((cleanupRoot m root).map Prod.fst) =
      ((List.insertionSort (· ≤ ·) (root.map Prod.fst)).drop
        ((List.insertionSort (· ≤ ·) (root.map Prod.fst)).length - m)).reverse := by
    apply sortedD_unique (sortD_sorted _)
    · rw [List.pairwise_reverse]
      exact List.Pairwise.sublist (List.drop_sublist _ _)
        (List.sorted_insertionSort (· ≤ ·) (root.map Prod.fst))
    · exact (sortD_perm _).trans (hperm.trans (List.reverse_perm _).symm)
  rw [h4, List.reverse_drop, ← sortD_eq_reverse_sortA]
  have hlen1 : (sortD (root.map Prod.fst)).length = (root.map Prod.fst).length :=
    (sortD_perm _).length_eq
  have hlen2 : (List.insertionSort (· ≤ ·) (root.map Prod.fst)).length =
      (root.map Prod.fst).length :=
    (List.perm_insertionSort (· ≤ ·) (root.map Prod.fst)).length_eq
  by_cases hm : m ≤ (root.map Prod.fst).length
  · congr 1
    omega
  · rw [List.take_of_length_le (by omega), List.take_of_length_le (by omega)]

theorem saveToRoot_names (sid dk : List Char) (data : RData) (root : Root) :
    (saveToRoot sid dk data root).map Prod.fst =
      if fileName sid dk ∈ root.map Prod.fst then root.map Prod.fst
      else root.map Prod.fst ++ [fileName sid dk] := by
  have hany : (root.any (fun f => f.1 = fileName sid dk) = true) ↔
      fileName sid dk ∈ root.map Prod.fst := by
    simp only [List.any_eq_true, List.mem_map, decide_eq_true_eq]
  unfold saveToRoot
  by_cases hmem : fileName sid dk ∈ root.map Prod.fst
  · rw [if_pos (hany.2 hmem), if_pos hmem, List.map_map]
    apply List.map_congr_left
    intro f _
    by_cases hf : f.1 = fileName sid dk <;> simp [hf]
  · rw [if_neg (fun h => hmem (hany.1 h)), if_neg hmem, List.map_append]
    rfl

theorem rotation_step (m : Nat) (sid : List Char) (root : Root) (dk : List Char)
    (data : RData) (acc : List (List Char))
    (hnd : (root.map Prod.fst).Nodup)
    (hacc_s : acc.Pairwise (fun a b => b ≤ a)) (hacc_nd : acc.Nodup)
    (hinv : sortD (root.map Prod.fst) = acc.take m) :
    ((stepSave m sid root (dk, data)).map Prod.fst).Nodup ∧
    sortD ((stepSave m sid root (dk, data)).map Prod.fst) =
      (if fileName sid dk ∈ acc then acc else insertD (fileName sid dk) acc).take m ∧
    (if fileName sid dk ∈ acc then acc
      else insertD (fileName sid dk) acc).Pairwise (fun a b => b ≤ a) ∧
    (if fileName sid dk ∈ acc then acc else insertD (fileName sid dk) acc).Nodup := by
  have hsave := saveToRoot_names sid dk data root
  by_cases hxin : fileName sid dk ∈ root.map Prod.fst
  · -- the partition file already exists: names unchanged
    rw [if_pos hxin] at hsave
    have hnd2 : ((saveToRoot sid dk data root).map Prod.fst).Nodup := by
      rw [hsave]; exact hnd
    have hstep : sortD ((stepSave m sid root (dk, data)).map Prod.fst) =
        acc.take m := by
      show sortD ((cleanupRoot m (saveToRoot sid dk data root)).map Prod.fst) = _
      rw [sortD_cleanup m _ hnd2, hsave, hinv, List.take_take, min_self]
    have hxacc : fileName sid dk ∈ acc := by
      have h1 : fileName sid dk ∈ sortD (root.map Prod.fst) :=
        (sortD_perm _).mem_iff.2 hxin
      rw [hinv] at h1
      exact List.take_subset m acc h1
    rw [if_pos hxacc]
    refine ⟨?_, hstep, hacc_s, hacc_nd⟩
    show ((cleanupRoot m (saveToRoot sid dk data root)).map Prod.fst).Nodup
    rw [cleanup_names]
    exact List.Nodup.filter _ hnd2
  · -- a new partition file appears
    rw [if_neg hxin] at hsave
    have hnd2 : ((saveToRoot sid dk data root).map Prod.fst).Nodup := by
      rw [hsave, List.nodup_append]
      exact ⟨hnd, List.nodup_singleton _, by
        intro a ha hb
        simp only [List.mem_singleton] at hb
        exact hxin (hb ▸ ha)⟩
    have hsns : sortD (root.map Prod.fst ++ [fileName sid dk]) =
        insertD (fileName sid dk) (sortD (root.map Prod.fst)) := by
      apply sortedD_unique (sortD_sorted _) (insertD_sorted (sortD_sorted _))
      exact (sortD_perm _).trans
        ((List.perm_append_singleton _ _).trans
          (((sortD_perm (root.map Prod.fst)).symm.cons _).trans
            (insertD_perm _ (sortD (root.map Prod.fst))).symm))
    have hstep : sortD ((stepSave m sid root (dk, data)).map Prod.fst) =
        (insertD (fileName sid dk) acc).take m := by
      show sortD ((cleanupRoot m (saveToRoot sid dk data root)).map Prod.fst) = _
      rw [sortD_cleanup m _ hnd2, hsave, hsns, hinv, absorb]
    have hnd3 : ((stepSave m sid root (dk, data)).map Prod.fst).Nodup := by
      show ((cleanupRoot m (saveToRoot sid dk data root)).map Prod.fst).Nodup
      rw [cleanup_names]
      exact List.Nodup.filter _ hnd2
    by_cases hxacc : fileName sid dk ∈ acc
    · -- an already-seen but rotated-out (old) partition name
      have hxtake : fileName sid dk ∉ acc.take m := by
        intro h1
        apply hxin
        have h2 : fileName sid dk ∈ sortD (root.map Prod.fst) := hinv ▸ h1
        exact (sortD_perm _).mem_iff.1 h2
      have hxdrop : fileName sid dk ∈ acc.drop m := by
        have := (List.take_append_drop m acc) ▸ hxacc
        rcases List.mem_append.1 this with h | h
        · exact absurd h hxtake
        · exact h
      have hmlen : m < acc.length := by
        by_contra hle
        have : acc.drop m = [] := List.drop_eq_nil_of_le (by omega)
        rw [this] at hxdrop
        exact absurd hxdrop (List.not_mem_nil _)
      have hallgt : ∀ y ∈ acc.take m, ¬ y ≤ fileName sid dk := by
        intro y hy hyx
        have hsplit := (List.take_append_drop m acc).symm
        have hpw := hacc_s
        rw [hsplit] at hpw
        have hrel : fileName sid dk ≤ y :=
          (List.pairwise_append.1 hpw).2.2 y hy _ hxdrop
        have heq : y = fileName sid dk := le_antisymm hyx hrel
        have hnd4 := hacc_nd
        rw [hsplit, List.nodup_append] at hnd4
        exact hnd4.2.2 hy (by rw [heq]; exact hxdrop)
      have h5 : insertD (fileName sid dk) acc =
          acc.take m ++ insertD (fileName sid dk) (acc.drop m) := by
        conv_lhs => rw [← List.take_append_drop m acc]
        exact insertD_append_gt hallgt _
      have h6 : (insertD (fileName sid dk) acc).take m = acc.take m := by
        rw [h5]
        have hlen : (acc.take m).length = m := by
          rw [List.length_take]
          omega
        rw [List.take_left' hlen]
      rw [if_pos hxacc]
      exact ⟨hnd3, by rw [hstep, h6], hacc_s, hacc_nd⟩
    · rw [if_neg hxacc]
      exact ⟨hnd3, hstep, insertD_sorted hacc_s, insertD_nodup hacc_nd hxacc⟩

theorem cleanup_length (m : Nat) (root : Root) (hnd : (root.map Prod.fst).Nodup) :
    (cleanupRoot m root).length = min m root.length := by
  have h1 : (cleanupRoot m root).length = ((cleanupRoot m root).map Prod.fst).length :=
    (List.length_map _ _).symm
  have h2 : ((cleanupRoot m root).map Prod.fst).length =
      (sortD ((cleanupRoot m root).map Prod.fst)).length :=
    (sortD_perm _).length_eq.symm
  rw [h1, h2, sortD_cleanup m root hnd, List.length_take, (sortD_perm _).length_eq,
    List.length_map]

theorem cleanup_oldest (m : Nat) (root : Root) (hnd : (root.map Prod.fst).Nodup)
    (f : List Char) (hf : f ∈ root.map Prod.fst)
    (hdel : f ∉ (cleanupRoot m root).map Prod.fst)
    (g : List Char) (hg : g ∈ (cleanupRoot m root).map Prod.fst) : f ≤ g := by
  set s := List.insertionSort (· ≤ ·) (root.map Prod.fst) with hs
  set k := s.length - m with hk
  have hnames := cleanup_names m root
  rw [← hs, ← hk] at hnames
  have hsnd : s.Nodup :=
    ((List.perm_insertionSort (· ≤ ·) (root.map Prod.fst)).symm).nodup hnd
  have hdisj : ∀ y, y ∈ s.take k → y ∈ s.drop k → False := by
    have hnd4 := hsnd
    rw [← List.take_append_drop k s, List.nodup_append] at hnd4
    exact fun y h1 h2 => hnd4.2.2 h1 h2
  have hkept : ∀ y, y ∈ (cleanupRoot m root).map Prod.fst → y ∈ s.drop k := by
    intro y hy
    rw [hnames] at hy
    have hy2 := List.mem_filter.1 hy
    have hyns : y ∈ s :=
      (List.perm_insertionSort (· ≤ ·) (root.map Prod.fst)).mem_iff.2 hy2.1
    rw [← List.take_append_drop k s] at hyns
    rcases List.mem_append.1 hyns with h | h
    · exfalso
      have := hy2.2
      simp only [decide_eq_true_eq] at this
      exact this h
    · exact h
  have hftake : f ∈ s.take k := by
    have hfin : f ∈ s :=
      (List.perm_insertionSort (· ≤ ·) (root.map Prod.fst)).mem_iff.2 hf
    rw [← List.take_append_drop k s] at hfin
    rcases List.mem_append.1 hfin with h | h
    · exact h
    · exfalso
      apply hdel
      rw [hnames]
      refine List.mem_filter.2 ⟨hf, ?_⟩
      simp only [decide_eq_true_eq]
      exact fun hc => hdisj f hc h
  have hpw : s.Pairwise (· ≤ ·) :=
    List.sorted_insertionSort (· ≤ ·) (root.map Prod.fst)
  rw [← List.take_append_drop k s, List.pairwise_append] at hpw
  exact hpw.2.2 f hftake g (hkept g hg)

theorem rotation_fold (m : Nat) (sid : List Char) :
    ∀ (saves : List (List Char × RData)) (root : Root) (acc : List (List Char)),
      (root.map Prod.fst).Nodup →
      acc.Pairwise (fun a b => b ≤ a) → acc.Nodup →
      sortD (root.map Prod.fst) = acc.take m →
      ((saves.foldl (stepSave m sid) root).map Prod.fst).Nodup ∧
      sortD ((saves.foldl (stepSave m sid) root).map Prod.fst) =
        (saves.foldl (fun acc2 s0 =>
          if fileName sid s0.1 ∈ acc2 then acc2 else insertD (fileName sid s0.1) acc2)
          acc).take m := by
  intro saves
  induction saves with
  | nil => intro root acc h1 _ _ h4; exact ⟨h1, h4⟩
  | cons s0 rest ih =>
    intro root acc h1 h2 h3 h4
    obtain ⟨hnd2, hsort2, hs2, hn2⟩ := rotation_step m sid root s0.1 s0.2 acc h1 h2 h3 h4
    simp only [List.foldl_cons]
    exact ih _ _ hnd2 hs2 hn2 hsort2

/-- C7: rotation. (1) a successful primary save is exactly a save into the
root followed by the cleanup (tying the claim to save_primary); (2) after a
cleanup over distinct partition names the root holds min max_files (current
count) files, and every deleted name is ≤ (older than, names embedding dates)
every kept name; (3) over any sequence of saves starting from an empty root,
the retained partition names, sorted newest first, are exactly the max_files
newest of all partition names the sequence ever produced. -/
theorem C7_rotation (m : Nat) (sid : List Char) :
    (∀ (cfg : StorageCfg) (now : CivilDate) (data : RData) (st : StorageState),
        cfg.maxFiles = m → cfg.stationId = sid →
        (savePrimary cfg true now data st).2.primary =
          stepSave m sid st.primary (dateKeyFromTimestamp now data.timestamp, data)) ∧
    (∀ root : Root, (root.map Prod.fst).Nodup →
        (cleanupRoot m root).length = min m root.length ∧
        ∀ f ∈ root.map Prod.fst, f ∉ (cleanupRoot m root).map Prod.fst →
          ∀ g ∈ (cleanupRoot m root).map Prod.fst, f ≤ g) ∧
    (∀ saves : List (List Char × RData),
        ((saves.foldl (stepSave m sid) []).map Prod.fst).Nodup ∧
        sortD ((saves.foldl (stepSave m sid) []).map Prod.fst) =
          (accNames sid saves).take m) := by
  refine ⟨?_, ?_, ?_⟩
  · intro cfg now data st hm hsid
    subst hm
    subst hsid
    rfl
  · intro root hnd
    exact ⟨cleanup_length m root hnd,
      fun f hf hdel g hg => cleanup_oldest m root hnd f hf hdel g hg⟩
  · intro saves
    exact rotation_fold m sid saves [] [] List.nodup_nil List.Pairwise.nil
      List.nodup_nil (by simp [sortD])

end SnowSensor
